import Mathlib

/-!
Verification of chiku/assert

A shallow embedding of `assert.go` (package `assert`): the five helpers
`RequireNoError`, `RequireError`, `AssertEqual`, `AssertContains` and
`CreateFile`, over an explicit state (the package variable `Skips`, the
`*testing.T` the helpers signal to, standard output, the temporary files).

The helpers call into the Go standard library.  The library functions they use
are modelled from their Go definitions: `path.Base`, `strings.Contains`,
`runtime.Caller`, `reflect.DeepEqual`, `testing.T.Fail` / `FailNow`,
`ioutil.TempFile`, `os.File.Write` / `Close` / `Name`.  What `fmt` prints for a
value under `%#v`, and under `%s` for a value that is not a string, is a
parameter.  The values handed to `AssertEqual` may hold pointers, slices and
maps; what these refer to is in a memory, and `reflect.DeepEqual` is the
traversal of two values through that memory that remembers the pairs of
addresses it has compared.

Go strings are modelled as Lean strings, that is as texts in valid UTF-8; on
these, searching for a slash or for a substring byte by byte and character by
character agree.  A test function is a list of statements run in order; a
statement inside which the goroutine exits ends the run.
-/

namespace Assert

/-! ## Go library: errors, stack frames, paths, substring search -/

/-- A non-nil Go `error`, given by the text its `Error()` method returns.
A nil error is `none : Option GoError`. -/
structure GoError where
  text : String
deriving DecidableEq, Repr

/-- One frame of the call stack as `runtime.Caller` reports it: the source file
of the function running in the frame and the line it is currently at (for every
frame but the innermost, the line of the call it is waiting on). -/
structure Frame where
  file : String
  line : Nat
deriving DecidableEq, Repr

/-- Go `runtime.Caller(skip)`, reduced to `(file, line, ok)`.  `stack` is the
call stack at the point of the call, innermost first: element 0 is the function
that calls `runtime.Caller`.  When the stack has no frame `skip` levels up the
result is the zero values `("", 0, false)`. -/
def Caller (stack : List Frame) (skip : Nat) : String × Nat × Bool :=
  match stack[skip]? with
  | some fr => (fr.file, fr.line, true)
  | none => ("", 0, false)

/-- The loop `for len(path) > 0 && path[len(path)-1] == '/'` of `path.Base`. -/
def stripTrailingSlashes (p : List Char) : List Char :=
  (p.reverse.dropWhile (fun c => c == '/')).reverse

/-- The step `if i := lastSlash(path); i >= 0 { path = path[i+1:] }` of
`path.Base`: what follows the last slash, or all of it when there is none. -/
def afterLastSlash (p : List Char) : List Char :=
  (p.reverse.takeWhile (fun c => c != '/')).reverse

/-- Go `path.Base`. -/
def Base (path : String) : String :=
  if path = "" then "."
  else
    let p := afterLastSlash (stripTrailingSlashes path.data)
    if p = [] then "/" else String.mk p

/-- First position at or after `i` where `sub` starts in the remaining text,
or `-1`. -/
def indexFrom : List Char → List Char → Nat → Int
  | [], sub, i => if sub = [] then (i : Int) else -1
  | c :: cs, sub, i =>
    if sub.isPrefixOf (c :: cs) then (i : Int) else indexFrom cs sub (i + 1)

/-- Go `strings.Index`: index of the first instance of `substr` in `s`, or
`-1`. -/
def Index (s substr : String) : Int :=
  indexFrom s.data substr.data 0

/-- Go `strings.Contains`: `Index(s, substr) >= 0`. -/
def Contains (s substr : String) : Bool :=
  decide (Index s substr ≥ 0)

/-- The bytes `[]byte(content)` of a string. -/
def bytesOf (content : String) : List UInt8 :=
  content.data.flatMap String.utf8EncodeChar

/-! ## Go values and `reflect.DeepEqual` -/

/-- A `float64` by its bits: sign, exponent field and fraction field.  (A
`float32` is taken at the `float64` it converts to.) -/
structure GoFloat where
  sign : Bool
  exp : Nat
  mant : Nat
deriving DecidableEq, Repr

/-- Not-a-number: the exponent field is all ones and the fraction is not zero. -/
def GoFloat.isNaN (x : GoFloat) : Bool := x.exp == 2047 && x.mant != 0

/-- A zero, of either sign. -/
def GoFloat.isZero (x : GoFloat) : Bool := x.exp == 0 && x.mant == 0

/-- Go `==` on floats: a not-a-number equals nothing, the two zeros are equal,
any other two values are equal when their bits are. -/
def GoFloat.eq (x y : GoFloat) : Bool :=
  !x.isNaN && !y.isNaN && ((x.isZero && y.isZero) || decide (x = y))

/-- The values passed as the empty interface, each with its dynamic type `ty`:
the nil interface; booleans; integers of every width, signed or not; floats;
complex numbers; strings; function values (`none` is the nil function);
channels and `unsafe.Pointer`s (`none` is nil, else the address); arrays;
structs; slices (nil, or the address of the first element and the length);
pointers (nil, or the address pointed to); maps (nil, or the address of the
map).  What is at an address is in the memory, a `Heap`, so that a value can
lead back to itself. -/
inductive GoValue where
  | nilV
  | boolV (ty : String) (b : Bool)
  | intV (ty : String) (n : Int)
  | floatV (ty : String) (x : GoFloat)
  | complexV (ty : String) (re im : GoFloat)
  | stringV (ty : String) (s : String)
  | funcV (ty : String) (code : Option Nat)
  | chanV (ty : String) (addr : Option Nat)
  | arrayV (ty : String) (elems : List GoValue)
  | structV (ty : String) (fields : List GoValue)
  | nilSliceV (ty : String)
  | sliceV (ty : String) (addr : Nat) (len : Nat)
  | nilPtrV (ty : String)
  | ptrV (ty : String) (addr : Nat)
  | nilMapV (ty : String)
  | mapV (ty : String) (addr : Nat)

/-- The dynamic type of a value; the nil interface has none. -/
def GoValue.typeOf : GoValue → Option String
  | .nilV => none
  | .boolV ty _ => some ty
  | .intV ty _ => some ty
  | .floatV ty _ => some ty
  | .complexV ty _ _ => some ty
  | .stringV ty _ => some ty
  | .funcV ty _ => some ty
  | .chanV ty _ => some ty
  | .arrayV ty _ => some ty
  | .structV ty _ => some ty
  | .nilSliceV ty => some ty
  | .sliceV ty _ _ => some ty
  | .nilPtrV ty => some ty
  | .ptrV ty _ => some ty
  | .nilMapV ty => some ty
  | .mapV ty _ => some ty

/-- What the memory holds at an address: the value a pointer points to, the
elements a slice starts at, or the entries (key and value) of a map. -/
inductive Cell where
  | val (v : GoValue)
  | arr (elems : List GoValue)
  | map (entries : List (GoValue × GoValue))

/-- The memory: the cell at address `p` is the `p`-th of the list. -/
abbrev Heap := List Cell

/-- What a pointer to `p` points to. -/
def Heap.valAt (H : Heap) (p : Nat) : Option GoValue :=
  match H[p]? with
  | some (.val v) => some v
  | _ => none

/-- The elements of a slice of length `len` starting at `p`; an empty slice has
none, whatever its address. -/
def Heap.arrAt (H : Heap) (p : Nat) (len : Nat) : Option (List GoValue) :=
  if len = 0 then some []
  else
    match H[p]? with
    | some (.arr xs) => if len ≤ xs.length then some (xs.take len) else none
    | _ => none

/-- The entries of the map at `p`. -/
def Heap.mapAt (H : Heap) (p : Nat) : Option (List (GoValue × GoValue)) :=
  match H[p]? with
  | some (.map es) => some es
  | _ => none

mutual
/-- Go `==` on two interface values holding comparable values (it is what finds
a key in a map): same dynamic type and equal value, pointers and channels by
address, arrays and structs element by element. -/
def goEq : GoValue → GoValue → Bool
  | .nilV, .nilV => true
  | .boolV t1 a, .boolV t2 b => t1 == t2 && a == b
  | .intV t1 a, .intV t2 b => t1 == t2 && a == b
  | .floatV t1 a, .floatV t2 b => t1 == t2 && GoFloat.eq a b
  | .complexV t1 r1 i1, .complexV t2 r2 i2 => t1 == t2 && GoFloat.eq r1 r2 && GoFloat.eq i1 i2
  | .stringV t1 a, .stringV t2 b => t1 == t2 && a == b
  | .chanV t1 c, .chanV t2 d => t1 == t2 && c == d
  | .arrayV t1 xs, .arrayV t2 ys => t1 == t2 && goEqAll xs ys
  | .structV t1 xs, .structV t2 ys => t1 == t2 && goEqAll xs ys
  | .nilPtrV t1, .nilPtrV t2 => t1 == t2
  | .ptrV t1 p, .ptrV t2 q => t1 == t2 && p == q
  | _, _ => false
/-- Go `==` element by element. -/
def goEqAll : List GoValue → List GoValue → Bool
  | [], [] => true
  | x :: xs, y :: ys => goEq x y && goEqAll xs ys
  | _, _ => false
end

/-- The value a map with entries `es` holds for key `k`: `MapIndex`. -/
def lookupKey (k : GoValue) : List (GoValue × GoValue) → Option GoValue
  | [] => none
  | (k1, v) :: rest => if goEq k k1 then some v else lookupKey k rest

mutual
/-- The number of nodes of a value, what is behind addresses not counted. -/
def GoValue.size : GoValue → Nat
  | .arrayV _ xs => 1 + sizeAll xs
  | .structV _ xs => 1 + sizeAll xs
  | _ => 1
/-- The number of nodes of a sequence of values. -/
def sizeAll : List GoValue → Nat
  | [] => 0
  | x :: xs => 1 + x.size + sizeAll xs
end

/-- The number of nodes of the values of a map. -/
def valuesSize : List (GoValue × GoValue) → Nat
  | [] => 0
  | (_, v) :: rest => v.size + valuesSize rest

/-- The number of nodes of a cell. -/
def Cell.size : Cell → Nat
  | .val v => v.size
  | .arr xs => sizeAll xs
  | .map es => es.length + valuesSize es

/-- The number of nodes of the memory. -/
def Heap.size (H : Heap) : Nat := (List.map Cell.size H).sum

/-- The pairs of addresses already compared, each with what was compared there:
`0` for two pointers, `1` for two maps, `n + 2` for two slices of length `n`. -/
abbrev Visited := List (Nat × Nat × Nat)

mutual
/-- Go `deepValueEqual`, the traversal behind `reflect.DeepEqual`, with the pairs
visited so far passed along and returned.  Values of different types are not
equal.  Scalars compare with `==`; function values are equal only when both are
nil; channels when they are the same; arrays and structs element by element;
slices when both are nil, or both non-nil of one length and either at the same
address or element by element; pointers when they are the same or point to
equal values; maps when both are nil, or both non-nil of one length and either
the same map or with equal values under every key.  A pair of pointers, slices
or maps met a second time counts as equal, which ends the traversal of a value
that leads back to itself.  `f` bounds the depth of the traversal. -/
def deepValueEqual (H : Heap) : Nat → Visited → GoValue → GoValue → Option (Bool × Visited)
  | 0, _, _, _ => none
  | f + 1, vis, a, b =>
    match a with
    | .nilV =>
      match b with
      | .nilV => some (true, vis)
      | _ => some (false, vis)
    | .boolV t1 x =>
      match b with
      | .boolV t2 y => some (t1 == t2 && x == y, vis)
      | _ => some (false, vis)
    | .intV t1 x =>
      match b with
      | .intV t2 y => some (t1 == t2 && x == y, vis)
      | _ => some (false, vis)
    | .floatV t1 x =>
      match b with
      | .floatV t2 y => some (t1 == t2 && GoFloat.eq x y, vis)
      | _ => some (false, vis)
    | .complexV t1 r1 i1 =>
      match b with
      | .complexV t2 r2 i2 => some (t1 == t2 && GoFloat.eq r1 r2 && GoFloat.eq i1 i2, vis)
      | _ => some (false, vis)
    | .stringV t1 x =>
      match b with
      | .stringV t2 y => some (t1 == t2 && x == y, vis)
      | _ => some (false, vis)
    | .funcV t1 g1 =>
      match b with
      | .funcV t2 g2 => some (t1 == t2 && g1.isNone && g2.isNone, vis)
      | _ => some (false, vis)
    | .chanV t1 c =>
      match b with
      | .chanV t2 d => some (t1 == t2 && c == d, vis)
      | _ => some (false, vis)
    | .arrayV t1 xs =>
      match b with
      | .arrayV t2 ys => if t1 == t2 then deepEqualAll H f vis xs ys else some (false, vis)
      | _ => some (false, vis)
    | .structV t1 xs =>
      match b with
      | .structV t2 ys => if t1 == t2 then deepEqualAll H f vis xs ys else some (false, vis)
      | _ => some (false, vis)
    | .nilSliceV t1 =>
      match b with
      | .nilSliceV t2 => some (t1 == t2, vis)
      | _ => some (false, vis)
    | .sliceV t1 p n =>
      match b with
      | .sliceV t2 q m =>
        if t1 == t2 && n == m then
          if vis.contains (p, q, n + 2) then some (true, vis)
          else if p == q then some (true, (p, q, n + 2) :: vis)
          else
            match H.arrAt p n, H.arrAt q n with
            | some xs, some ys => deepEqualAll H f ((p, q, n + 2) :: vis) xs ys
            | _, _ => some (false, vis)
        else some (false, vis)
      | _ => some (false, vis)
    | .nilPtrV t1 =>
      match b with
      | .nilPtrV t2 => some (t1 == t2, vis)
      | _ => some (false, vis)
    | .ptrV t1 p =>
      match b with
      | .ptrV t2 q =>
        if t1 == t2 then
          if vis.contains (p, q, 0) then some (true, vis)
          else if p == q then some (true, (p, q, 0) :: vis)
          else
            match H.valAt p, H.valAt q with
            | some x, some y => deepValueEqual H f ((p, q, 0) :: vis) x y
            | _, _ => some (false, vis)
        else some (false, vis)
      | _ => some (false, vis)
    | .nilMapV t1 =>
      match b with
      | .nilMapV t2 => some (t1 == t2, vis)
      | _ => some (false, vis)
    | .mapV t1 p =>
      match b with
      | .mapV t2 q =>
        if t1 == t2 then
          if vis.contains (p, q, 1) then some (true, vis)
          else if p == q then some (true, (p, q, 1) :: vis)
          else
            match H.mapAt p, H.mapAt q with
            | some es1, some es2 =>
              if es1.length == es2.length then
                deepEqualEntries H f ((p, q, 1) :: vis) es1 es1 es2
              else some (false, vis)
            | _, _ => some (false, vis)
        else some (false, vis)
      | _ => some (false, vis)
/-- The elements of two sequences in turn, until a pair differs. -/
def deepEqualAll (H : Heap) : Nat → Visited → List GoValue → List GoValue → Option (Bool × Visited)
  | 0, _, _, _ => none
  | f + 1, vis, xs, ys =>
    match xs, ys with
    | [], [] => some (true, vis)
    | x :: xs, y :: ys =>
      match deepValueEqual H f vis x y with
      | some (true, vis1) => deepEqualAll H f vis1 xs ys
      | r => r
    | _, _ => some (false, vis)
/-- The keys of the first map in turn: the values both maps hold under each. -/
def deepEqualEntries (H : Heap) : Nat → Visited → List (GoValue × GoValue) →
    List (GoValue × GoValue) → List (GoValue × GoValue) → Option (Bool × Visited)
  | 0, _, _, _, _ => none
  | f + 1, vis, todo, es1, es2 =>
    match todo with
    | [] => some (true, vis)
    | (k, _) :: rest =>
      match lookupKey k es1, lookupKey k es2 with
      | some v1, some v2 =>
        match deepValueEqual H f vis v1 v2 with
        | some (true, vis1) => deepEqualEntries H f vis1 rest es1 es2
        | r => r
      | _, _ => some (false, vis)
end

/-- A depth no traversal exceeds: every step down either enters a node of the
value at hand or opens a pair of addresses not visited before. -/
def fuelFor (H : Heap) (a : GoValue) : Nat :=
  H.length * H.length * (H.size + a.size + 3) * (H.size + a.size + 1) + (H.size + a.size) + 1

/-- Go `reflect.DeepEqual` on two values in the memory `H`. -/
def DeepEqual (H : Heap) (a b : GoValue) : Bool :=
  match deepValueEqual H (fuelFor H a) [] a b with
  | some (r, _) => r
  | none => false

/-! ## Program state -/

/-- The `*testing.T` of the running test: its `failed` flag, and how many times
the helpers called `Fail` and `FailNow` on it. -/
structure TestingT where
  failed : Bool
  failCalls : Nat
  failNowCalls : Nat
deriving DecidableEq, Repr

/-- The operations on temporary files a helper can ask the system for. -/
inductive SysCall where
  | create
  | write
  | close
  | remove
deriving DecidableEq, Repr

/-- What the system answers to the three file operations of one `CreateFile`
call: `create` is the path of the new file or the error of `ioutil.TempFile`;
`write` is `none` when all bytes were written, or the number of bytes written
before the error and the error; `close` is the error of `Close`, if any. -/
structure TempFileOS where
  create : Except GoError String
  write : Option (Nat × GoError)
  close : Option GoError

/-- The state the helpers read and change: the package variable `Skips`, the
test's `*testing.T`, the text written to standard output so far, the files (path
and contents), and the file operations requested so far.  `Skips` is a Go `int`,
taken here as a natural number: a negative value would address frames of the
runtime below the helper, which a stack of this development does not hold. -/
structure State where
  Skips : Nat
  t : TestingT
  stdout : String
  files : List (String × List UInt8)
  sys : List SysCall

/-- How a call ends: it returns a value, or the goroutine exits inside it
(`runtime.Goexit`, from `t.FailNow`), or it panics. -/
inductive Outcome (α : Type) where
  | returned (val : α) (s : State)
  | goexit (s : State)
  | panicked (s : State)

/-- The state a call ends in. -/
def Outcome.state {α : Type} : Outcome α → State
  | .returned _ s => s
  | .goexit s => s
  | .panicked s => s

/-- What does not change from one call to the next: the directory `assert.go` was
compiled from, the text `fmt` prints for a value under `%#v` and under `%s`, and
the memory the values handed to `AssertEqual` point into. -/
structure Env where
  srcDir : String
  sharpV : GoValue → String
  verbS : GoValue → String
  heap : Heap

/-- The source file of the helpers, as the runtime records it. -/
def assertGo (env : Env) : String :=
  env.srcDir ++ "/assert.go"

/-- The verb `%s` applied to an the empty interface operand: a value of type
`string` is printed as it is. -/
def fmtS (env : Env) (v : GoValue) : String :=
  match v with
  | .stringV ty s => if ty = "string" then s else env.verbS v
  | _ => env.verbS v

/-- Go `fmt.Printf` once the format has been expanded to `text`. -/
def Printf (text : String) (s : State) : State :=
  { s with stdout := s.stdout ++ text }

/-- Go `t.Fail()`: marks the test failed; the test goes on. -/
def Fail (s : State) : State :=
  { s with t := { s.t with failed := true, failCalls := s.t.failCalls + 1 } }

/-- Go `t.FailNow()`: marks the test failed and exits the goroutine. -/
def FailNow (s : State) : Outcome Unit :=
  .goexit { s with t := { s.t with failed := true, failNowCalls := s.t.failNowCalls + 1 } }

/-- Sequencing of two calls: the second runs only when the first returns. -/
def Outcome.andThen {α β : Type} (o : Outcome α) (k : α → State → Outcome β) : Outcome β :=
  match o with
  | .returned a s => k a s
  | .goexit s => .goexit s
  | .panicked s => .panicked s

/-! ## The helpers of `assert.go`

`callers` is the call stack at the call of the helper, innermost first: its head
is the frame of the function that calls the helper, at the line of the call. -/

/-- Go `RequireNoError` (assert.go:29). -/
def RequireNoError (env : Env) (callers : List Frame) (err : Option GoError) (msg : String)
    (s : State) : Outcome Unit :=
  match err with
  | some e =>
    let r := Caller (⟨assertGo env, 31⟩ :: callers) s.Skips
    let fileBase := Base r.1
    let s1 := Printf ("\t" ++ fileBase ++ ":" ++ toString r.2.1 ++ ": " ++ msg ++ "\n") s
    let s2 := Printf ("\t" ++ fileBase ++ ":" ++ toString r.2.1 ++ ": " ++ e.text ++ "\n\n") s1
    FailNow s2
  | none => .returned () s

/-- Go `RequireError` (assert.go:43). -/
def RequireError (env : Env) (callers : List Frame) (err : Option GoError) (msg : String)
    (s : State) : Outcome Unit :=
  match err with
  | none =>
    let r := Caller (⟨assertGo env, 45⟩ :: callers) s.Skips
    let fileBase := Base r.1
    let s1 := Printf ("\t" ++ fileBase ++ ":" ++ toString r.2.1 ++ ": " ++ msg ++ "\n") s
    FailNow s1
  | some _ => .returned () s

/-- Go `AssertEqual` (assert.go:56). -/
def AssertEqual (env : Env) (callers : List Frame) (actual expected msg : GoValue)
    (s : State) : Outcome Unit :=
  if !DeepEqual env.heap actual expected then
    let r := Caller (⟨assertGo env, 58⟩ :: callers) s.Skips
    let fileBase := Base r.1
    let s1 := Printf ("\t" ++ fileBase ++ ":" ++ toString r.2.1 ++ ": " ++ fmtS env msg ++ "\n") s
    let s2 := Printf ("\t" ++ fileBase ++ ":" ++ toString r.2.1 ++ ": " ++ env.sharpV actual
      ++ " != " ++ env.sharpV expected ++ "\n\n") s1
    .returned () (Fail s2)
  else .returned () s

/-- Go `AssertContains` (assert.go:70). -/
def AssertContains (env : Env) (callers : List Frame) (total part msg : String)
    (s : State) : Outcome Unit :=
  if !Contains total part then
    let r := Caller (⟨assertGo env, 72⟩ :: callers) s.Skips
    let fileBase := Base r.1
    let s1 := Printf ("\t" ++ fileBase ++ ":" ++ toString r.2.1 ++ ": " ++ msg ++ "\n") s
    let s2 := Printf ("\t" ++ fileBase ++ ":" ++ toString r.2.1 ++ ": "
      ++ env.sharpV (.stringV "string" total) ++ " doesn\x27t contain "
      ++ env.sharpV (.stringV "string" part) ++ "\n\n") s1
    .returned () (Fail s2)
  else .returned () s

/-- Go `ioutil.TempFile("", "example")`: the new, empty file and a nil error, or
a nil file and the error. -/
def TempFile (os : TempFileOS) (s : State) : Option String × Option GoError × State :=
  match os.create with
  | .ok name =>
    (some name, none, { s with files := (name, []) :: s.files, sys := s.sys ++ [.create] })
  | .error e => (none, some e, { s with sys := s.sys ++ [.create] })

/-- Appends `bytes` to the contents of the file at `name`. -/
def appendTo (name : String) (bytes : List UInt8) :
    List (String × List UInt8) → List (String × List UInt8)
  | [] => []
  | (n, c) :: rest =>
    if n = name then (n, c ++ bytes) :: rest else (n, c) :: appendTo name bytes rest

/-- Go `tmpfile.Write(b)`, reduced to its error: on a nil file it fails with
`os.ErrInvalid` and asks the system for nothing; otherwise all of `b` is written
and the error is nil, or part of it is written and the error is not nil. -/
def fileWrite (os : TempFileOS) (tmpfile : Option String) (b : List UInt8) (s : State) :
    Option GoError × State :=
  match tmpfile with
  | none => (some ⟨"invalid argument"⟩, s)
  | some name =>
    match os.write with
    | none => (none, { s with files := appendTo name b s.files, sys := s.sys ++ [.write] })
    | some (n, e) =>
      (some e, { s with files := appendTo name (b.take n) s.files, sys := s.sys ++ [.write] })

/-- Go `tmpfile.Close()`. -/
def fileClose (os : TempFileOS) (tmpfile : Option String) (s : State) :
    Option GoError × State :=
  match tmpfile with
  | none => (some ⟨"invalid argument"⟩, s)
  | some _ => (os.close, { s with sys := s.sys ++ [.close] })

/-- Go `tmpfile.Name()`: a nil file has no name to read. -/
def fileName (tmpfile : Option String) (s : State) : Outcome String :=
  match tmpfile with
  | none => .panicked s
  | some name => .returned name s

/-- Go `CreateFile` (assert.go:85). -/
def CreateFile (env : Env) (callers : List Frame) (os : TempFileOS) (content : String)
    (s : State) : Outcome String :=
  let r1 := TempFile os s
  let tmpfile := r1.1
  (RequireNoError env (⟨assertGo env, 87⟩ :: callers) r1.2.1
      "Expected no error creating temporary file" r1.2.2).andThen fun _ s1 =>
    let r2 := fileWrite os tmpfile (bytesOf content) s1
    (RequireNoError env (⟨assertGo env, 89⟩ :: callers) r2.1
        "Expected no error writing to temporary file" r2.2).andThen fun _ s2 =>
      let r3 := fileClose os tmpfile s2
      (RequireNoError env (⟨assertGo env, 91⟩ :: callers) r3.1
          "Expected no error closing temporary file" r3.2).andThen fun _ s3 =>
        fileName tmpfile s3

/-- Reading back the file at `name`: its contents, when it exists. -/
def readFile (name : String) (s : State) : Option (List UInt8) :=
  s.files.lookup name

/-! ## A test function calling the helpers -/

/-- The calls a test function makes, and an assignment to one of its local
variables. -/
inductive Op where
  | requireNoError (err : Option GoError) (msg : String)
  | requireError (err : Option GoError) (msg : String)
  | assertEqual (actual expected msg : GoValue)
  | assertContains (total part msg : String)
  | createFile (os : TempFileOS) (content : String)
  | assign (name : String) (v : GoValue)

/-- A statement of a test function: the line it stands on and what it does. -/
structure Stmt where
  line : Nat
  op : Op

/-- A test function in progress: the statements executed so far, the local
variables assigned so far, and the state. -/
structure Run where
  executed : List Stmt
  locals : List (String × GoValue)
  state : State

/-- How a test function ends: it ran to its end, or it was stopped inside one of
its statements (by `FailNow` or a panic). -/
inductive TestEnd where
  | completed (r : Run)
  | stopped (r : Run)

/-- The run a test function ends with. -/
def TestEnd.run : TestEnd → Run
  | .completed r => r
  | .stopped r => r

/-- One statement of a test function in `file`, whose own callers are `outer`. -/
def execStmt (env : Env) (file : String) (outer : List Frame) (st : Stmt) (r : Run) : TestEnd :=
  let callers : List Frame := ⟨file, st.line⟩ :: outer
  let ran := r.executed ++ [st]
  match st.op with
  | .requireNoError err msg =>
    match RequireNoError env callers err msg r.state with
    | .returned _ s => .completed ⟨ran, r.locals, s⟩
    | o => .stopped ⟨ran, r.locals, o.state⟩
  | .requireError err msg =>
    match RequireError env callers err msg r.state with
    | .returned _ s => .completed ⟨ran, r.locals, s⟩
    | o => .stopped ⟨ran, r.locals, o.state⟩
  | .assertEqual a b msg =>
    match AssertEqual env callers a b msg r.state with
    | .returned _ s => .completed ⟨ran, r.locals, s⟩
    | o => .stopped ⟨ran, r.locals, o.state⟩
  | .assertContains total part msg =>
    match AssertContains env callers total part msg r.state with
    | .returned _ s => .completed ⟨ran, r.locals, s⟩
    | o => .stopped ⟨ran, r.locals, o.state⟩
  | .createFile os content =>
    match CreateFile env callers os content r.state with
    | .returned name s => .completed ⟨ran, r.locals ++ [("filename", .stringV "string" name)], s⟩
    | o => .stopped ⟨ran, r.locals, o.state⟩
  | .assign name v => .completed ⟨ran, r.locals ++ [(name, v)], r.state⟩

/-- The statements of a test function, in order: a statement runs only when all
before it have completed. -/
def runTest (env : Env) (file : String) (outer : List Frame) : List Stmt → Run → TestEnd
  | [], r => .completed r
  | st :: rest, r =>
    match execStmt env file outer st r with
    | .completed r1 => runTest env file outer rest r1
    | .stopped r1 => .stopped r1

/-! ## Specification vocabulary -/

/-- The location a helper prints: the base name and line of what
`runtime.Caller(skip)` reports on `stack`. -/
def located (stack : List Frame) (skip : Nat) : String × Nat :=
  (Base (Caller stack skip).1, (Caller stack skip).2.1)

/-- One diagnostic line: tab, file, colon, line, colon, blank, text, newline. -/
def diagLine (loc : String × Nat) (text : String) : String :=
  "\t" ++ loc.1 ++ ":" ++ toString loc.2 ++ ": " ++ text ++ "\n"

/-- The text `part` occurs in `whole`. -/
def Occurs (part whole : String) : Prop :=
  ∃ before after : String, whole = before ++ part ++ after

/-- How the leaves of two values are compared: floats by `fl`, function values by
`fn`. -/
structure Leaf where
  fl : GoFloat → GoFloat → Prop
  fn : Option Nat → Option Nat → Prop

/-- The comparison `reflect.DeepEqual` makes: floats by `==`, function values
equal only when both are nil. -/
def Leaf.deep : Leaf := ⟨fun x y => GoFloat.eq x y = true, fun f g => f = none ∧ g = none⟩

/-- Identical, and neither a not-a-number nor a non-nil function value. -/
def Leaf.identical : Leaf :=
  ⟨fun x y => x = y ∧ x.isNaN = false, fun f g => f = g ∧ f = none⟩

/-- Identical, but for the sign of a zero. -/
def Leaf.upToZero : Leaf :=
  ⟨fun x y => x = y ∨ (x.isZero = true ∧ y.isZero = true), fun f g => f = g⟩

mutual
/-- Two values are alike down to the addresses in them: same type and kind, and
scalars equal, floats as `L` compares them, function values as `L` compares
them, channels the same, arrays and structs alike element by element, slices
both nil or of one length, pointers both nil or not, maps both nil or not.  Two
addresses in corresponding places are the same, or are a pair of `V`. -/
def Match (L : Leaf) (V : Nat × Nat × Nat → Prop) : GoValue → GoValue → Prop
  | .nilV, b => b = .nilV
  | .boolV t x, b => b = .boolV t x
  | .intV t x, b => b = .intV t x
  | .floatV t x, b => ∃ y, b = .floatV t y ∧ L.fl x y
  | .complexV t r1 i1, b => ∃ r2 i2, b = .complexV t r2 i2 ∧ L.fl r1 r2 ∧ L.fl i1 i2
  | .stringV t x, b => b = .stringV t x
  | .funcV t g1, b => ∃ g2, b = .funcV t g2 ∧ L.fn g1 g2
  | .chanV t c, b => b = .chanV t c
  | .arrayV t xs, b => ∃ ys, b = .arrayV t ys ∧ MatchAll L V xs ys
  | .structV t xs, b => ∃ ys, b = .structV t ys ∧ MatchAll L V xs ys
  | .nilSliceV t, b => b = .nilSliceV t
  | .sliceV t p n, b => ∃ q, b = .sliceV t q n ∧ (p = q ∨ V (p, q, n + 2))
  | .nilPtrV t, b => b = .nilPtrV t
  | .ptrV t p, b => ∃ q, b = .ptrV t q ∧ (p = q ∨ V (p, q, 0))
  | .nilMapV t, b => b = .nilMapV t
  | .mapV t p, b => ∃ q, b = .mapV t q ∧ (p = q ∨ V (p, q, 1))
/-- Two sequences are alike element by element. -/
def MatchAll (L : Leaf) (V : Nat × Nat × Nat → Prop) : List GoValue → List GoValue → Prop
  | [], ys => ys = []
  | x :: xs, ys => ∃ y ys1, ys = y :: ys1 ∧ Match L V x y ∧ MatchAll L V xs ys1
end

/-- The two maps hold values that are alike under every key of `todo`. -/
def EntriesMatch (L : Leaf) (V : Nat × Nat × Nat → Prop)
    (todo es1 es2 : List (GoValue × GoValue)) : Prop :=
  ∀ kv ∈ todo, ∃ v1 v2, lookupKey kv.1 es1 = some v1 ∧ lookupKey kv.1 es2 = some v2 ∧
    Match L V v1 v2

/-- What is at the two addresses of a pair is alike: the pair is of one address,
or of two pointers to values that are alike, or of two maps of one length with
values alike under every key, or of two slices with elements that are alike. -/
def CellOK (L : Leaf) (H : Heap) (V : Nat × Nat × Nat → Prop) (k : Nat × Nat × Nat) : Prop :=
  k.1 = k.2.1 ∨
  (k.2.2 = 0 ∧ ∃ x y, H.valAt k.1 = some x ∧ H.valAt k.2.1 = some y ∧ Match L V x y) ∨
  (k.2.2 = 1 ∧ ∃ es1 es2, H.mapAt k.1 = some es1 ∧ H.mapAt k.2.1 = some es2 ∧
    es1.length = es2.length ∧ EntriesMatch L V es1 es1 es2) ∨
  (∃ n, k.2.2 = n + 2 ∧ ∃ xs ys, H.arrAt k.1 n = some xs ∧ H.arrAt k.2.1 n = some ys ∧
    MatchAll L V xs ys)

/-- Every pair of `V` is a pair of addresses at which the memory is alike, down
to pairs of `V` again. -/
def Closed (L : Leaf) (H : Heap) (V : Nat × Nat × Nat → Prop) : Prop :=
  ∀ k, V k → CellOK L H V k

/-- The two values have the same type and recursively identical structure and
content, leaves compared by `L`: they are alike down to addresses that are
paired by a set of pairs at which the memory is alike in turn.  Such a set may
pair the addresses of two values that lead back to themselves. -/
def Same (L : Leaf) (H : Heap) (a b : GoValue) : Prop :=
  ∃ V : Nat × Nat × Nat → Prop, Closed L H V ∧ Match L V a b

mutual
/-- No not-a-number and no non-nil function value is in the value itself, that
is, is reached without passing through a pointer, a slice or a map. -/
def GoValue.guarded : GoValue → Bool
  | .floatV _ x => !x.isNaN
  | .complexV _ re im => !re.isNaN && !im.isNaN
  | .funcV _ code => code.isNone
  | .arrayV _ xs => guardedAll xs
  | .structV _ xs => guardedAll xs
  | _ => true
/-- No not-a-number and no non-nil function value is in the sequence itself. -/
def guardedAll : List GoValue → Bool
  | [] => true
  | x :: xs => x.guarded && guardedAll xs
end

/-- The pairs of addresses of the memory, with what can be compared there. -/
def keySpace (H : Heap) (S : Nat) : Finset (Nat × Nat × Nat) :=
  Finset.range H.length ×ˢ Finset.range H.length ×ˢ Finset.range (S + 3)

/-- The number of pairs of addresses not visited yet. -/
def budget (H : Heap) (S : Nat) (vis : Visited) : Nat :=
  (keySpace H S \ vis.toFinset).card

/-- The state after a failed check that goes on: `text` written, `Fail` called
once. -/
def markedFailed (s : State) (text : String) : State :=
  { s with
    stdout := s.stdout ++ text
    t := { s.t with failed := true, failCalls := s.t.failCalls + 1 } }

/-- The state after a failed check that stops the test: `text` written, `FailNow`
called once. -/
def aborted (s : State) (text : String) : State :=
  { s with
    stdout := s.stdout ++ text
    t := { s.t with failed := true, failNowCalls := s.t.failNowCalls + 1 } }

/-- The statement is one of the two checks that go on after a failure. -/
def Stmt.isCheck (st : Stmt) : Bool :=
  match st.op with
  | .assertEqual _ _ _ => true
  | .assertContains _ _ _ => true
  | _ => false

/-- The condition under which a check of a statement fails: the `if` of
`AssertEqual`, of `AssertContains`. -/
def Stmt.checkFails (env : Env) (st : Stmt) : Bool :=
  match st.op with
  | .assertEqual actual expected _ => !DeepEqual env.heap actual expected
  | .assertContains total part _ => !Contains total part
  | _ => false

/-- The first of the three steps of `CreateFile` the system refuses, if any: the
line of the `RequireNoError` call guarding it, the message of that call, and the
error. -/
def firstFailure (os : TempFileOS) : Option (Nat × String × GoError) :=
  match os.create with
  | .error e => some (87, "Expected no error creating temporary file", e)
  | .ok _ =>
    match os.write with
    | some (_, e) => some (89, "Expected no error writing to temporary file", e)
    | none =>
      match os.close with
      | some e => some (91, "Expected no error closing temporary file", e)
      | none => none

/-- The file operations `CreateFile` asks for before it stops or returns. -/
def stepsTaken (os : TempFileOS) : List SysCall :=
  match os.create with
  | .error _ => [.create]
  | .ok _ =>
    match os.write with
    | some _ => [.create, .write]
    | none => [.create, .write, .close]

/-- The files after `CreateFile`: none new when the creation fails, else the new
file with what was written of `content`. -/
def filesLeft (os : TempFileOS) (content : String) (files : List (String × List UInt8)) :
    List (String × List UInt8) :=
  match os.create with
  | .error _ => files
  | .ok name =>
    match os.write with
    | some (n, _) => (name, (bytesOf content).take n) :: files
    | none => (name, bytesOf content) :: files

/-- The stack `runtime.Caller` sees when `RequireNoError` runs for the
`RequireNoError` call at line `l` of `CreateFile`, itself called from
`callers`. -/
def stackInCreateFile (env : Env) (l : Nat) (callers : List Frame) : List Frame :=
  ⟨assertGo env, 31⟩ :: ⟨assertGo env, l⟩ :: callers

/-- The two diagnostic lines and the blank line of a failed `RequireNoError`:
message `m`, then the description of `e`, both at `loc`. -/
def twoLines (loc : String × Nat) (m detail : String) : String :=
  diagLine loc m ++ (diagLine loc detail ++ "\n")

/-! ## Example data -/

/-- An example of `%#v`: integers in decimal, strings in quotes, function values
as an address. -/
def exampleSharpV : GoValue → String
  | .intV _ n => toString n
  | .stringV _ s => "\"" ++ s ++ "\""
  | .funcV ty _ => "(" ++ ty ++ ")(0x47b0e0)"
  | .floatV _ x => if x.isNaN then "NaN" else if x.sign then "-0" else "0"
  | .chanV ty _ => "(" ++ ty ++ ")(0xc000012345)"
  | _ => "?"

/-- An example memory: at addresses 0 and 1 two nodes of a list, each holding the
number 1 and a pointer to itself; at address 2 a node holding the number 2 and a
pointer to itself; at addresses 3 and 4 two maps with the same entries; at
addresses 5 and 6 two arrays that differ in their third element. -/
def exampleHeap : Heap :=
  [.val (.structV "node" [.intV "int" 1, .ptrV "*node" 0]),
   .val (.structV "node" [.intV "int" 1, .ptrV "*node" 1]),
   .val (.structV "node" [.intV "int" 2, .ptrV "*node" 2]),
   .map [(.stringV "string" "a", .intV "int" 1), (.stringV "string" "b", .intV "int" 2)],
   .map [(.stringV "string" "b", .intV "int" 2), (.stringV "string" "a", .intV "int" 1)],
   .arr [.intV "int" 1, .intV "int" 2, .intV "int" 3],
   .arr [.intV "int" 1, .intV "int" 2, .intV "int" 4]]

/-- An example environment. -/
def exampleEnv : Env :=
  ⟨"/home/dev/go/src/github.com/chiku/assert", exampleSharpV, fun _ => "?", exampleHeap⟩

/-- A not-a-number. -/
def nan : GoFloat := ⟨false, 2047, 1⟩

/-- The zero of positive sign. -/
def posZero : GoFloat := ⟨false, 0, 0⟩

/-- The zero of negative sign. -/
def negZero : GoFloat := ⟨true, 0, 0⟩

/-- The callers of an example test function: the test runner and the goroutine
entry. -/
def exampleOuter : List Frame :=
  [⟨"/usr/local/go/src/testing/testing.go", 1446⟩, ⟨"/usr/local/go/src/runtime/asm_amd64.s", 1594⟩]

/-- The source file of an example test function. -/
def exampleFile : String := "/home/dev/project/example_test.go"

/-- A fresh state with the default `Skips`. -/
def exampleState : State := ⟨1, ⟨false, 0, 0⟩, "", [], []⟩

/-- The value `5`. -/
def five : GoValue := .intV "int" 5

/-- The value `6`. -/
def six : GoValue := .intV "int" 6

/-- A string value. -/
def str (s : String) : GoValue := .stringV "string" s

/-- A system that creates the file and then fails to write: two bytes get
written before the disk is full. -/
def diskFull : TempFileOS :=
  ⟨.ok "/tmp/example123456", some (2, ⟨"write /tmp/example123456: no space left on device"⟩), none⟩

/-- A system on which all three steps succeed. -/
def healthy : TempFileOS := ⟨.ok "/tmp/example123456", none, none⟩

/-! ## Shared lemmas -/

theorem requireNoError_some (env : Env) (callers : List Frame) (e : GoError) (m : String)
    (s : State) :
    RequireNoError env callers (some e) m s =
      .goexit (aborted s
        (twoLines (located (⟨assertGo env, 31⟩ :: callers) s.Skips) m e.text)) := by
  simp [RequireNoError, FailNow, Printf, diagLine, twoLines, located, aborted,
    String.append_assoc]

theorem requireNoError_none (env : Env) (callers : List Frame) (m : String) (s : State) :
    RequireNoError env callers none m s = .returned () s := rfl

theorem requireError_none (env : Env) (callers : List Frame) (m : String) (s : State) :
    RequireError env callers none m s =
      .goexit (aborted s (diagLine (located (⟨assertGo env, 45⟩ :: callers) s.Skips) m)) := by
  simp [RequireError, FailNow, Printf, diagLine, located, aborted, String.append_assoc]

theorem requireError_some (env : Env) (callers : List Frame) (e : GoError) (m : String)
    (s : State) :
    RequireError env callers (some e) m s = .returned () s := rfl

theorem occurs_mid (a b c : String) : Occurs b (a ++ b ++ c) := ⟨a, c, rfl⟩

theorem occurs_append_left (p a b : String) (h : Occurs p b) : Occurs p (a ++ b) := by
  obtain ⟨x, y, rfl⟩ := h
  exact ⟨a ++ x, y, by simp [String.append_assoc]⟩

theorem occurs_append_right (p a b : String) (h : Occurs p a) : Occurs p (a ++ b) := by
  obtain ⟨x, y, rfl⟩ := h
  exact ⟨x, y ++ b, by simp [String.append_assoc]⟩

theorem occurs_diagLine (loc : String × Nat) (text : String) : Occurs text (diagLine loc text) :=
  ⟨"\t" ++ loc.1 ++ ":" ++ toString loc.2 ++ ": ", "\n", rfl⟩

theorem indexFrom_nonneg_iff (sub : List Char) :
    ∀ (cs : List Char) (i : Nat), 0 ≤ indexFrom cs sub i ↔ sub <:+: cs
  | [], i => by
    by_cases h : sub = [] <;> simp [indexFrom, h]
  | c :: cs, i => by
    by_cases h : sub.isPrefixOf (c :: cs) = true
    · have hp : sub <+: c :: cs := List.isPrefixOf_iff_prefix.mp h
      simp only [indexFrom, h, if_true]
      exact ⟨fun _ => hp.isInfix, fun _ => Int.ofNat_nonneg i⟩
    · have hp : ¬ sub <+: c :: cs := fun hp => h (List.isPrefixOf_iff_prefix.mpr hp)
      simp only [indexFrom, h]
      rw [if_neg (by simp), indexFrom_nonneg_iff sub cs (i + 1), List.infix_cons_iff]
      exact ⟨Or.inr, fun hh => hh.resolve_left hp⟩

theorem occurs_iff_contiguous (part total : String) :
    Occurs part total ↔ part.data <:+: total.data := by
  constructor
  · rintro ⟨b, a, rfl⟩
    exact ⟨b.data, a.data, by simp [String.data_append]⟩
  · rintro ⟨b, a, h⟩
    refine ⟨String.mk b, String.mk a, ?_⟩
    apply String.ext
    simp [String.data_append, h]

theorem contains_iff_occurs (total part : String) :
    Contains total part = true ↔ Occurs part total := by
  rw [occurs_iff_contiguous, ← indexFrom_nonneg_iff part.data total.data 0]
  simp [Contains, Index]

theorem assertContains_pass (env : Env) (callers : List Frame) (total part m : String)
    (s : State) (h : Contains total part = true) :
    AssertContains env callers total part m s = .returned () s := by
  simp [AssertContains, h]

theorem assertContains_fail (env : Env) (callers : List Frame) (total part m : String)
    (s : State) (h : Contains total part = false) :
    AssertContains env callers total part m s =
      .returned () (markedFailed s
        (twoLines (located (⟨assertGo env, 72⟩ :: callers) s.Skips) m
          (env.sharpV (.stringV "string" total) ++ " doesn\x27t contain "
            ++ env.sharpV (.stringV "string" part)))) := by
  simp [AssertContains, h, Fail, Printf, diagLine, twoLines, located, markedFailed,
    String.append_assoc]

mutual
theorem match_mono (L L1 : Leaf) (V V1 : Nat × Nat × Nat → Prop)
    (hfl : ∀ x y, L.fl x y → L1.fl x y) (hfn : ∀ f g, L.fn f g → L1.fn f g)
    (hV : ∀ k, V k → V1 k) :
    ∀ a b : GoValue, Match L V a b → Match L1 V1 a b
  | .nilV, _, h => by simpa only [Match] using h
  | .boolV _ _, _, h => by simpa only [Match] using h
  | .intV _ _, _, h => by simpa only [Match] using h
  | .floatV _ _, _, h => by
    simp only [Match] at h ⊢
    obtain ⟨y, hb, hl⟩ := h
    exact ⟨y, hb, hfl _ _ hl⟩
  | .complexV _ _ _, _, h => by
    simp only [Match] at h ⊢
    obtain ⟨r2, i2, hb, h1, h2⟩ := h
    exact ⟨r2, i2, hb, hfl _ _ h1, hfl _ _ h2⟩
  | .stringV _ _, _, h => by simpa only [Match] using h
  | .funcV _ _, _, h => by
    simp only [Match] at h ⊢
    obtain ⟨g2, hb, hl⟩ := h
    exact ⟨g2, hb, hfn _ _ hl⟩
  | .chanV _ _, _, h => by simpa only [Match] using h
  | .arrayV _ xs, _, h => by
    simp only [Match] at h ⊢
    obtain ⟨ys, hb, hl⟩ := h
    exact ⟨ys, hb, matchAll_mono L L1 V V1 hfl hfn hV xs ys hl⟩
  | .structV _ xs, _, h => by
    simp only [Match] at h ⊢
    obtain ⟨ys, hb, hl⟩ := h
    exact ⟨ys, hb, matchAll_mono L L1 V V1 hfl hfn hV xs ys hl⟩
  | .nilSliceV _, _, h => by simpa only [Match] using h
  | .sliceV _ _ _, _, h => by
    simp only [Match] at h ⊢
    obtain ⟨q, hb, hl⟩ := h
    exact ⟨q, hb, hl.imp id (hV _)⟩
  | .nilPtrV _, _, h => by simpa only [Match] using h
  | .ptrV _ _, _, h => by
    simp only [Match] at h ⊢
    obtain ⟨q, hb, hl⟩ := h
    exact ⟨q, hb, hl.imp id (hV _)⟩
  | .nilMapV _, _, h => by simpa only [Match] using h
  | .mapV _ _, _, h => by
    simp only [Match] at h ⊢
    obtain ⟨q, hb, hl⟩ := h
    exact ⟨q, hb, hl.imp id (hV _)⟩
theorem matchAll_mono (L L1 : Leaf) (V V1 : Nat × Nat × Nat → Prop)
    (hfl : ∀ x y, L.fl x y → L1.fl x y) (hfn : ∀ f g, L.fn f g → L1.fn f g)
    (hV : ∀ k, V k → V1 k) :
    ∀ xs ys : List GoValue, MatchAll L V xs ys → MatchAll L1 V1 xs ys
  | [], _, h => by simpa only [MatchAll] using h
  | x :: xs, _, h => by
    simp only [MatchAll] at h ⊢
    obtain ⟨y, ys1, hb, h1, h2⟩ := h
    exact ⟨y, ys1, hb, match_mono L L1 V V1 hfl hfn hV x y h1,
      matchAll_mono L L1 V V1 hfl hfn hV xs ys1 h2⟩
end

theorem entriesMatch_mono (L L1 : Leaf) (V V1 : Nat × Nat × Nat → Prop)
    (hfl : ∀ x y, L.fl x y → L1.fl x y) (hfn : ∀ f g, L.fn f g → L1.fn f g)
    (hV : ∀ k, V k → V1 k) (todo es1 es2 : List (GoValue × GoValue))
    (h : EntriesMatch L V todo es1 es2) : EntriesMatch L1 V1 todo es1 es2 := by
  intro kv hkv
  obtain ⟨v1, v2, h1, h2, hm⟩ := h kv hkv
  exact ⟨v1, v2, h1, h2, match_mono L L1 V V1 hfl hfn hV v1 v2 hm⟩

theorem cellOK_mono (L L1 : Leaf) (H : Heap) (V V1 : Nat × Nat × Nat → Prop)
    (hfl : ∀ x y, L.fl x y → L1.fl x y) (hfn : ∀ f g, L.fn f g → L1.fn f g)
    (hV : ∀ k, V k → V1 k) (k : Nat × Nat × Nat) (h : CellOK L H V k) : CellOK L1 H V1 k := by
  rcases h with h | ⟨ht, x, y, hx, hy, hm⟩ | ⟨ht, es1, es2, h1, h2, hl, hm⟩ | ⟨n, ht, xs, ys, hx, hy, hm⟩
  · exact Or.inl h
  · exact Or.inr (Or.inl ⟨ht, x, y, hx, hy, match_mono L L1 V V1 hfl hfn hV x y hm⟩)
  · exact Or.inr (Or.inr (Or.inl ⟨ht, es1, es2, h1, h2, hl,
      entriesMatch_mono L L1 V V1 hfl hfn hV _ _ _ hm⟩))
  · exact Or.inr (Or.inr (Or.inr ⟨n, ht, xs, ys, hx, hy,
      matchAll_mono L L1 V V1 hfl hfn hV xs ys hm⟩))

theorem same_mono (L L1 : Leaf) (H : Heap)
    (hfl : ∀ x y, L.fl x y → L1.fl x y) (hfn : ∀ f g, L.fn f g → L1.fn f g)
    (a b : GoValue) (h : Same L H a b) : Same L1 H a b := by
  obtain ⟨V, hc, hm⟩ := h
  exact ⟨V, fun k hk => cellOK_mono L L1 H V V hfl hfn (fun _ h => h) k (hc k hk),
    match_mono L L1 V V hfl hfn (fun _ h => h) a b hm⟩

theorem cellOK_mono_vis (L : Leaf) (H : Heap) (vis vis1 : Visited) (hs : ∀ k ∈ vis, k ∈ vis1)
    (k : Nat × Nat × Nat) (h : CellOK L H (· ∈ vis) k) : CellOK L H (· ∈ vis1) k :=
  cellOK_mono L L H _ _ (fun _ _ h => h) (fun _ _ h => h) hs k h

mutual
theorem deepValueEqual_sound (H : Heap) : ∀ (f : Nat) (vis : Visited) (a b : GoValue) (vis1 : Visited),
    deepValueEqual H f vis a b = some (true, vis1) →
    (∀ k ∈ vis, k ∈ vis1) ∧ Match .deep (· ∈ vis1) a b ∧
    (∀ k ∈ vis1, k ∉ vis → CellOK .deep H (· ∈ vis1) k)
  | 0, _, _, _, _, h => by simp [deepValueEqual] at h
  | f + 1, vis, a, b, vis1, h => by
    cases a with
    | nilV =>
      cases b <;> simp [deepValueEqual] at h
      subst h
      exact ⟨fun k hk => hk, by simp [Match], fun k hk hn => absurd hk hn⟩
    | boolV t1 x =>
      cases b <;> simp [deepValueEqual] at h
      obtain ⟨⟨rfl, rfl⟩, rfl⟩ := h
      exact ⟨fun k hk => hk, by simp [Match], fun k hk hn => absurd hk hn⟩
    | intV t1 x =>
      cases b <;> simp [deepValueEqual] at h
      obtain ⟨⟨rfl, rfl⟩, rfl⟩ := h
      exact ⟨fun k hk => hk, by simp [Match], fun k hk hn => absurd hk hn⟩
    | floatV t1 x =>
      cases b <;> simp [deepValueEqual] at h
      obtain ⟨⟨rfl, hx⟩, rfl⟩ := h
      exact ⟨fun k hk => hk, by simp [Match, Leaf.deep, hx], fun k hk hn => absurd hk hn⟩
    | complexV t1 r1 i1 =>
      cases b <;> simp [deepValueEqual] at h
      obtain ⟨⟨⟨rfl, hx⟩, hy⟩, rfl⟩ := h
      refine ⟨fun k hk => hk, ?_, fun k hk hn => absurd hk hn⟩
      simp only [Match, Leaf.deep]
      exact ⟨_, _, rfl, hx, hy⟩
    | stringV t1 x =>
      cases b <;> simp [deepValueEqual] at h
      obtain ⟨⟨rfl, rfl⟩, rfl⟩ := h
      exact ⟨fun k hk => hk, by simp [Match], fun k hk hn => absurd hk hn⟩
    | funcV t1 g1 =>
      cases b <;> simp [deepValueEqual] at h
      obtain ⟨⟨⟨rfl, hx⟩, hy⟩, rfl⟩ := h
      exact ⟨fun k hk => hk, by simp [Match, Leaf.deep, hx, hy], fun k hk hn => absurd hk hn⟩
    | chanV t1 c =>
      cases b <;> simp [deepValueEqual] at h
      obtain ⟨⟨rfl, rfl⟩, rfl⟩ := h
      exact ⟨fun k hk => hk, by simp [Match], fun k hk hn => absurd hk hn⟩
    | arrayV t1 xs =>
      cases b with
      | arrayV t2 ys =>
        simp only [deepValueEqual] at h
        by_cases ht : (t1 == t2) = true
        · rw [if_pos ht] at h
          simp only [beq_iff_eq] at ht
          subst ht
          obtain ⟨h1, h2, h3⟩ := deepEqualAll_sound H f vis xs ys vis1 h
          exact ⟨h1, by simp [Match, h2], h3⟩
        · rw [if_neg ht] at h
          simp at h
      | _ => simp [deepValueEqual] at h
    | structV t1 xs =>
      cases b with
      | structV t2 ys =>
        simp only [deepValueEqual] at h
        by_cases ht : (t1 == t2) = true
        · rw [if_pos ht] at h
          simp only [beq_iff_eq] at ht
          subst ht
          obtain ⟨h1, h2, h3⟩ := deepEqualAll_sound H f vis xs ys vis1 h
          exact ⟨h1, by simp [Match, h2], h3⟩
        · rw [if_neg ht] at h
          simp at h
      | _ => simp [deepValueEqual] at h
    | nilSliceV t1 =>
      cases b <;> simp [deepValueEqual] at h
      obtain ⟨rfl, rfl⟩ := h
      exact ⟨fun k hk => hk, by simp [Match], fun k hk hn => absurd hk hn⟩
    | sliceV t1 p n =>
      cases b with
      | sliceV t2 q m =>
        simp only [deepValueEqual] at h
        by_cases ht : (t1 == t2 && n == m) = true
        · rw [if_pos ht] at h
          simp only [Bool.and_eq_true, beq_iff_eq] at ht
          obtain ⟨rfl, rfl⟩ := ht
          by_cases hv : vis.contains (p, q, n + 2) = true
          · rw [if_pos hv] at h
            simp only [Option.some.injEq, Prod.mk.injEq, true_and] at h
            subst h
            have hv1 : (p, q, n + 2) ∈ vis := by simpa using hv
            exact ⟨fun k hk => hk, by simp [Match, hv1], fun k hk hn => absurd hk hn⟩
          · rw [if_neg hv] at h
            by_cases hpq : (p == q) = true
            · rw [if_pos hpq] at h
              simp only [Option.some.injEq, Prod.mk.injEq, true_and] at h
              subst h
              have hpq1 : p = q := by simpa using hpq
              refine ⟨fun k hk => List.mem_cons_of_mem _ hk, by simp [Match, hpq1],
                fun k hk hn => ?_⟩
              rcases List.mem_cons.mp hk with rfl | hk
              · exact Or.inl hpq1
              · exact absurd hk hn
            · rw [if_neg hpq] at h
              cases hx : H.arrAt p n with
              | none => simp [hx] at h
              | some xs =>
                cases hy : H.arrAt q n with
                | none => simp [hx, hy] at h
                | some ys =>
                  simp only [hx, hy] at h
                  obtain ⟨h1, h2, h3⟩ := deepEqualAll_sound H f _ xs ys vis1 h
                  have hk0 : (p, q, n + 2) ∈ vis1 := h1 _ (List.mem_cons_self _ _)
                  refine ⟨fun k hk => h1 k (List.mem_cons_of_mem _ hk), by simp [Match, hk0],
                    fun k hk hn => ?_⟩
                  by_cases hkk : k = (p, q, n + 2)
                  · subst hkk
                    exact Or.inr (Or.inr (Or.inr ⟨n, rfl, xs, ys, hx, hy, h2⟩))
                  · exact h3 k hk (fun hm => by
                      rcases List.mem_cons.mp hm with rfl | hm
                      · exact hkk rfl
                      · exact hn hm)
        · rw [if_neg ht] at h
          simp at h
      | _ => simp [deepValueEqual] at h
    | nilPtrV t1 =>
      cases b <;> simp [deepValueEqual] at h
      obtain ⟨rfl, rfl⟩ := h
      exact ⟨fun k hk => hk, by simp [Match], fun k hk hn => absurd hk hn⟩
    | ptrV t1 p =>
      cases b with
      | ptrV t2 q =>
        simp only [deepValueEqual] at h
        by_cases ht : (t1 == t2) = true
        · rw [if_pos ht] at h
          simp only [beq_iff_eq] at ht
          subst ht
          by_cases hv : vis.contains (p, q, 0) = true
          · rw [if_pos hv] at h
            simp only [Option.some.injEq, Prod.mk.injEq, true_and] at h
            subst h
            have hv1 : (p, q, 0) ∈ vis := by simpa using hv
            exact ⟨fun k hk => hk, by simp [Match, hv1], fun k hk hn => absurd hk hn⟩
          · rw [if_neg hv] at h
            by_cases hpq : (p == q) = true
            · rw [if_pos hpq] at h
              simp only [Option.some.injEq, Prod.mk.injEq, true_and] at h
              subst h
              have hpq1 : p = q := by simpa using hpq
              refine ⟨fun k hk => List.mem_cons_of_mem _ hk, by simp [Match, hpq1],
                fun k hk hn => ?_⟩
              rcases List.mem_cons.mp hk with rfl | hk
              · exact Or.inl hpq1
              · exact absurd hk hn
            · rw [if_neg hpq] at h
              cases hx : H.valAt p with
              | none => simp [hx] at h
              | some x =>
                cases hy : H.valAt q with
                | none => simp [hx, hy] at h
                | some y =>
                  simp only [hx, hy] at h
                  obtain ⟨h1, h2, h3⟩ := deepValueEqual_sound H f _ x y vis1 h
                  have hk0 : (p, q, 0) ∈ vis1 := h1 _ (List.mem_cons_self _ _)
                  refine ⟨fun k hk => h1 k (List.mem_cons_of_mem _ hk), by simp [Match, hk0],
                    fun k hk hn => ?_⟩
                  by_cases hkk : k = (p, q, 0)
                  · subst hkk
                    exact Or.inr (Or.inl ⟨rfl, x, y, hx, hy, h2⟩)
                  · exact h3 k hk (fun hm => by
                      rcases List.mem_cons.mp hm with rfl | hm
                      · exact hkk rfl
                      · exact hn hm)
        · rw [if_neg ht] at h
          simp at h
      | _ => simp [deepValueEqual] at h
    | nilMapV t1 =>
      cases b <;> simp [deepValueEqual] at h
      obtain ⟨rfl, rfl⟩ := h
      exact ⟨fun k hk => hk, by simp [Match], fun k hk hn => absurd hk hn⟩
    | mapV t1 p =>
      cases b with
      | mapV t2 q =>
        simp only [deepValueEqual] at h
        by_cases ht : (t1 == t2) = true
        · rw [if_pos ht] at h
          simp only [beq_iff_eq] at ht
          subst ht
          by_cases hv : vis.contains (p, q, 1) = true
          · rw [if_pos hv] at h
            simp only [Option.some.injEq, Prod.mk.injEq, true_and] at h
            subst h
            have hv1 : (p, q, 1) ∈ vis := by simpa using hv
            exact ⟨fun k hk => hk, by simp [Match, hv1], fun k hk hn => absurd hk hn⟩
          · rw [if_neg hv] at h
            by_cases hpq : (p == q) = true
            · rw [if_pos hpq] at h
              simp only [Option.some.injEq, Prod.mk.injEq, true_and] at h
              subst h
              have hpq1 : p = q := by simpa using hpq
              refine ⟨fun k hk => List.mem_cons_of_mem _ hk, by simp [Match, hpq1],
                fun k hk hn => ?_⟩
              rcases List.mem_cons.mp hk with rfl | hk
              · exact Or.inl hpq1
              · exact absurd hk hn
            · rw [if_neg hpq] at h
              cases hx : H.mapAt p with
              | none => simp [hx] at h
              | some es1 =>
                cases hy : H.mapAt q with
                | none => simp [hx, hy] at h
                | some es2 =>
                  simp only [hx, hy] at h
                  by_cases hl : (es1.length == es2.length) = true
                  · rw [if_pos hl] at h
                    obtain ⟨h1, h2, h3⟩ := deepEqualEntries_sound H f _ es1 es1 es2 vis1 h
                    have hk0 : (p, q, 1) ∈ vis1 := h1 _ (List.mem_cons_self _ _)
                    refine ⟨fun k hk => h1 k (List.mem_cons_of_mem _ hk),
                      by simp [Match, hk0], fun k hk hn => ?_⟩
                    by_cases hkk : k = (p, q, 1)
                    · subst hkk
                      exact Or.inr (Or.inr (Or.inl ⟨rfl, es1, es2, hx, hy, by simpa using hl, h2⟩))
                    · exact h3 k hk (fun hm => by
                        rcases List.mem_cons.mp hm with rfl | hm
                        · exact hkk rfl
                        · exact hn hm)
                  · rw [if_neg hl] at h
                    simp at h
        · rw [if_neg ht] at h
          simp at h
      | _ => simp [deepValueEqual] at h
theorem deepEqualAll_sound (H : Heap) : ∀ (f : Nat) (vis : Visited) (xs ys : List GoValue)
    (vis1 : Visited), deepEqualAll H f vis xs ys = some (true, vis1) →
    (∀ k ∈ vis, k ∈ vis1) ∧ MatchAll .deep (· ∈ vis1) xs ys ∧
    (∀ k ∈ vis1, k ∉ vis → CellOK .deep H (· ∈ vis1) k)
  | 0, _, _, _, _, h => by simp [deepEqualAll] at h
  | f + 1, vis, [], [], vis1, h => by
    simp [deepEqualAll] at h
    subst h
    exact ⟨fun k hk => hk, by simp [MatchAll], fun k hk hn => absurd hk hn⟩
  | f + 1, vis, [], _ :: _, vis1, h => by simp [deepEqualAll] at h
  | f + 1, vis, _ :: _, [], vis1, h => by simp [deepEqualAll] at h
  | f + 1, vis, x :: xs, y :: ys, vis1, h => by
    simp only [deepEqualAll] at h
    cases hd : deepValueEqual H f vis x y with
    | none => simp [hd] at h
    | some r =>
      obtain ⟨r, vis2⟩ := r
      cases r with
      | false => simp [hd] at h
      | true =>
        simp only [hd] at h
        obtain ⟨a1, a2, a3⟩ := deepValueEqual_sound H f vis x y vis2 hd
        obtain ⟨b1, b2, b3⟩ := deepEqualAll_sound H f vis2 xs ys vis1 h
        refine ⟨fun k hk => b1 k (a1 k hk), ?_, fun k hk hn => ?_⟩
        · simp only [MatchAll]
          exact ⟨y, ys, rfl, match_mono _ _ _ _ (fun _ _ h => h) (fun _ _ h => h) b1 x y a2, b2⟩
        · by_cases hk2 : k ∈ vis2
          · exact cellOK_mono_vis _ H vis2 vis1 b1 k (a3 k hk2 hn)
          · exact b3 k hk hk2
theorem deepEqualEntries_sound (H : Heap) : ∀ (f : Nat) (vis : Visited)
    (todo es1 es2 : List (GoValue × GoValue)) (vis1 : Visited),
    deepEqualEntries H f vis todo es1 es2 = some (true, vis1) →
    (∀ k ∈ vis, k ∈ vis1) ∧ EntriesMatch .deep (· ∈ vis1) todo es1 es2 ∧
    (∀ k ∈ vis1, k ∉ vis → CellOK .deep H (· ∈ vis1) k)
  | 0, _, _, _, _, _, h => by simp [deepEqualEntries] at h
  | f + 1, vis, [], es1, es2, vis1, h => by
    simp [deepEqualEntries] at h
    subst h
    exact ⟨fun k hk => hk, fun kv hkv => by simp at hkv, fun k hk hn => absurd hk hn⟩
  | f + 1, vis, (k0, w) :: rest, es1, es2, vis1, h => by
    simp only [deepEqualEntries] at h
    cases h1 : lookupKey k0 es1 with
    | none => simp [h1] at h
    | some v1 =>
      cases h2 : lookupKey k0 es2 with
      | none => simp [h1, h2] at h
      | some v2 =>
        simp only [h1, h2] at h
        cases hd : deepValueEqual H f vis v1 v2 with
        | none => simp [hd] at h
        | some r =>
          obtain ⟨r, vis2⟩ := r
          cases r with
          | false => simp [hd] at h
          | true =>
            simp only [hd] at h
            obtain ⟨a1, a2, a3⟩ := deepValueEqual_sound H f vis v1 v2 vis2 hd
            obtain ⟨b1, b2, b3⟩ := deepEqualEntries_sound H f vis2 rest es1 es2 vis1 h
            refine ⟨fun k hk => b1 k (a1 k hk), fun kv hkv => ?_, fun k hk hn => ?_⟩
            · rcases List.mem_cons.mp hkv with rfl | hkv
              · exact ⟨v1, v2, h1, h2,
                  match_mono _ _ _ _ (fun _ _ h => h) (fun _ _ h => h) b1 v1 v2 a2⟩
              · exact b2 kv hkv
            · by_cases hk2 : k ∈ vis2
              · exact cellOK_mono_vis _ H vis2 vis1 b1 k (a3 k hk2 hn)
              · exact b3 k hk hk2
end

mutual
theorem deepValueEqual_complete (H : Heap) (V0 : Nat × Nat × Nat → Prop) (hc : Closed .deep H V0) :
    ∀ (f : Nat) (vis : Visited) (a b : GoValue) (r : Bool) (vis1 : Visited),
    Match .deep V0 a b → deepValueEqual H f vis a b = some (r, vis1) → r = true
  | 0, _, _, _, _, _, _, h => by simp [deepValueEqual] at h
  | f + 1, vis, a, b, r, vis1, hm, h => by
    cases a with
    | nilV =>
      simp only [Match] at hm
      subst hm
      simp [deepValueEqual] at h
      exact h.1
    | boolV t1 x =>
      simp only [Match] at hm
      subst hm
      simp [deepValueEqual] at h
      exact h.1
    | intV t1 x =>
      simp only [Match] at hm
      subst hm
      simp [deepValueEqual] at h
      exact h.1
    | floatV t1 x =>
      simp only [Match, Leaf.deep] at hm
      obtain ⟨y, rfl, hl⟩ := hm
      simp [deepValueEqual, hl] at h
      exact h.1
    | complexV t1 r1 i1 =>
      simp only [Match, Leaf.deep] at hm
      obtain ⟨r2, i2, rfl, hl1, hl2⟩ := hm
      simp [deepValueEqual, hl1, hl2] at h
      exact h.1
    | stringV t1 x =>
      simp only [Match] at hm
      subst hm
      simp [deepValueEqual] at h
      exact h.1
    | funcV t1 g1 =>
      simp only [Match, Leaf.deep] at hm
      obtain ⟨g2, rfl, rfl, rfl⟩ := hm
      simp [deepValueEqual] at h
      exact h.1
    | chanV t1 c =>
      simp only [Match] at hm
      subst hm
      simp [deepValueEqual] at h
      exact h.1
    | arrayV t1 xs =>
      simp only [Match] at hm
      obtain ⟨ys, rfl, hl⟩ := hm
      simp only [deepValueEqual, beq_self_eq_true, if_true] at h
      exact deepEqualAll_complete H V0 hc f vis xs ys r vis1 hl h
    | structV t1 xs =>
      simp only [Match] at hm
      obtain ⟨ys, rfl, hl⟩ := hm
      simp only [deepValueEqual, beq_self_eq_true, if_true] at h
      exact deepEqualAll_complete H V0 hc f vis xs ys r vis1 hl h
    | nilSliceV t1 =>
      simp only [Match] at hm
      subst hm
      simp [deepValueEqual] at h
      exact h.1
    | sliceV t1 p n =>
      simp only [Match] at hm
      obtain ⟨q, rfl, hl⟩ := hm
      simp only [deepValueEqual, beq_self_eq_true, Bool.and_self, if_true] at h
      by_cases hv : vis.contains (p, q, n + 2) = true
      · rw [if_pos hv] at h
        simp at h
        exact h.1
      · rw [if_neg hv] at h
        by_cases hpq : (p == q) = true
        · rw [if_pos hpq] at h
          simp at h
          exact h.1
        · rw [if_neg hpq] at h
          have hne : p ≠ q := by simpa using hpq
          rcases hl with hl | hl
          · exact absurd hl hne
          · rcases hc _ hl with h0 | ⟨h0, -⟩ | ⟨h0, -⟩ | ⟨n1, h0, xs, ys, hx, hy, hxy⟩
            · exact absurd h0 hne
            · simp at h0
            · simp at h0
            · simp only [Nat.add_right_cancel_iff] at h0
              subst h0
              simp only [hx, hy] at h
              exact deepEqualAll_complete H V0 hc f _ xs ys r vis1 hxy h
    | nilPtrV t1 =>
      simp only [Match] at hm
      subst hm
      simp [deepValueEqual] at h
      exact h.1
    | ptrV t1 p =>
      simp only [Match] at hm
      obtain ⟨q, rfl, hl⟩ := hm
      simp only [deepValueEqual, beq_self_eq_true, if_true] at h
      by_cases hv : vis.contains (p, q, 0) = true
      · rw [if_pos hv] at h
        simp at h
        exact h.1
      · rw [if_neg hv] at h
        by_cases hpq : (p == q) = true
        · rw [if_pos hpq] at h
          simp at h
          exact h.1
        · rw [if_neg hpq] at h
          have hne : p ≠ q := by simpa using hpq
          rcases hl with hl | hl
          · exact absurd hl hne
          · rcases hc _ hl with h0 | ⟨-, x, y, hx, hy, hxy⟩ | ⟨h0, -⟩ | ⟨n1, h0, -⟩
            · exact absurd h0 hne
            · simp only [hx, hy] at h
              exact deepValueEqual_complete H V0 hc f _ x y r vis1 hxy h
            · simp at h0
            · simp at h0
    | nilMapV t1 =>
      simp only [Match] at hm
      subst hm
      simp [deepValueEqual] at h
      exact h.1
    | mapV t1 p =>
      simp only [Match] at hm
      obtain ⟨q, rfl, hl⟩ := hm
      simp only [deepValueEqual, beq_self_eq_true, if_true] at h
      by_cases hv : vis.contains (p, q, 1) = true
      · rw [if_pos hv] at h
        simp at h
        exact h.1
      · rw [if_neg hv] at h
        by_cases hpq : (p == q) = true
        · rw [if_pos hpq] at h
          simp at h
          exact h.1
        · rw [if_neg hpq] at h
          have hne : p ≠ q := by simpa using hpq
          rcases hl with hl | hl
          · exact absurd hl hne
          · rcases hc _ hl with h0 | ⟨h0, -⟩ | ⟨-, es1, es2, hx, hy, hlen, hxy⟩ | ⟨n1, h0, -⟩
            · exact absurd h0 hne
            · simp at h0
            · simp only [hx, hy, hlen, beq_self_eq_true, if_true] at h
              exact deepEqualEntries_complete H V0 hc f _ es1 es1 es2 r vis1 hxy h
            · simp at h0
theorem deepEqualAll_complete (H : Heap) (V0 : Nat × Nat × Nat → Prop) (hc : Closed .deep H V0) :
    ∀ (f : Nat) (vis : Visited) (xs ys : List GoValue) (r : Bool) (vis1 : Visited),
    MatchAll .deep V0 xs ys → deepEqualAll H f vis xs ys = some (r, vis1) → r = true
  | 0, _, _, _, _, _, _, h => by simp [deepEqualAll] at h
  | f + 1, vis, [], ys, r, vis1, hm, h => by
    simp only [MatchAll] at hm
    subst hm
    simp [deepEqualAll] at h
    exact h.1
  | f + 1, vis, x :: xs, ys, r, vis1, hm, h => by
    simp only [MatchAll] at hm
    obtain ⟨y, ys1, rfl, h1, h2⟩ := hm
    simp only [deepEqualAll] at h
    cases hd : deepValueEqual H f vis x y with
    | none => simp [hd] at h
    | some r2 =>
      obtain ⟨r2, vis2⟩ := r2
      have hr2 : r2 = true := deepValueEqual_complete H V0 hc f vis x y r2 vis2 h1 hd
      subst hr2
      simp only [hd] at h
      exact deepEqualAll_complete H V0 hc f vis2 xs ys1 r vis1 h2 h
theorem deepEqualEntries_complete (H : Heap) (V0 : Nat × Nat × Nat → Prop)
    (hc : Closed .deep H V0) :
    ∀ (f : Nat) (vis : Visited) (todo es1 es2 : List (GoValue × GoValue)) (r : Bool)
      (vis1 : Visited),
    EntriesMatch .deep V0 todo es1 es2 → deepEqualEntries H f vis todo es1 es2 = some (r, vis1) →
      r = true
  | 0, _, _, _, _, _, _, _, h => by simp [deepEqualEntries] at h
  | f + 1, vis, [], es1, es2, r, vis1, hm, h => by
    simp [deepEqualEntries] at h
    exact h.1
  | f + 1, vis, (k0, w) :: rest, es1, es2, r, vis1, hm, h => by
    obtain ⟨v1, v2, h1, h2, h12⟩ := hm (k0, w) (List.mem_cons_self _ _)
    simp only [deepEqualEntries, h1, h2] at h
    cases hd : deepValueEqual H f vis v1 v2 with
    | none => simp [hd] at h
    | some r2 =>
      obtain ⟨r2, vis2⟩ := r2
      have hr2 : r2 = true := deepValueEqual_complete H V0 hc f vis v1 v2 r2 vis2 h12 hd
      subst hr2
      simp only [hd] at h
      exact deepEqualEntries_complete H V0 hc f vis2 rest es1 es2 r vis1
        (fun kv hkv => hm kv (List.mem_cons_of_mem _ hkv)) h
end

theorem budget_mono (H : Heap) (S : Nat) (vis vis1 : Visited) (h : ∀ k ∈ vis, k ∈ vis1) :
    budget H S vis1 ≤ budget H S vis := by
  apply Finset.card_le_card
  intro k hk
  simp only [Finset.mem_sdiff, List.mem_toFinset] at hk ⊢
  exact ⟨hk.1, fun hm => hk.2 (h k hm)⟩

theorem budget_cons (H : Heap) (S : Nat) (vis : Visited) (k : Nat × Nat × Nat)
    (hk : k ∈ keySpace H S) (hn : k ∉ vis) :
    budget H S (k :: vis) + 1 = budget H S vis := by
  have h1 : keySpace H S \ (k :: vis).toFinset = (keySpace H S \ vis.toFinset).erase k := by
    ext x
    simp only [Finset.mem_sdiff, List.mem_toFinset, List.mem_cons, Finset.mem_erase]
    tauto
  have h2 : k ∈ keySpace H S \ vis.toFinset := by
    simp only [Finset.mem_sdiff, List.mem_toFinset]
    exact ⟨hk, hn⟩
  unfold budget
  rw [h1, Finset.card_erase_of_mem h2]
  have : 0 < (keySpace H S \ vis.toFinset).card := Finset.card_pos.mpr ⟨k, h2⟩
  omega

theorem step_budget (B B1 S f x : Nat) (hb : B1 + 1 = B) (hf : B * (S + 1) + 1 < f + 1)
    (hx : x ≤ S) : B1 * (S + 1) + x < f := by
  subst hb
  have : (B1 + 1) * (S + 1) = B1 * (S + 1) + (S + 1) := by ring
  omega

theorem keep_budget (B B1 S f x y : Nat) (hb : B1 ≤ B) (hf : B * (S + 1) + x < f)
    (hy : y ≤ x) : B1 * (S + 1) + y < f := by
  have : B1 * (S + 1) ≤ B * (S + 1) := Nat.mul_le_mul_right _ hb
  omega

theorem cell_size_le (H : Heap) (c : Cell) (p : Nat) (h : H[p]? = some c) :
    p < H.length ∧ c.size ≤ H.size := by
  have hp : p < H.length := (List.getElem?_eq_some_iff.mp h).1
  refine ⟨hp, ?_⟩
  have hm : c ∈ H := List.getElem?_mem h
  exact List.single_le_sum (fun _ _ => Nat.zero_le _) _ (List.mem_map_of_mem _ hm)

theorem size_pos : ∀ a : GoValue, 1 ≤ a.size := by
  intro a
  cases a <;> simp [GoValue.size]

theorem length_le_sizeAll : ∀ xs : List GoValue, xs.length ≤ sizeAll xs
  | [] => by simp [sizeAll]
  | x :: xs => by
    have := length_le_sizeAll xs
    simp only [List.length_cons, sizeAll]
    omega

theorem sizeAll_take : ∀ (n : Nat) (xs : List GoValue), sizeAll (xs.take n) ≤ sizeAll xs
  | 0, xs => by simp [sizeAll]
  | n + 1, [] => by simp [sizeAll]
  | n + 1, x :: xs => by
    have := sizeAll_take n xs
    simp only [List.take_succ_cons, sizeAll]
    omega

theorem lookupKey_size (k : GoValue) :
    ∀ (es : List (GoValue × GoValue)) (v : GoValue), lookupKey k es = some v →
      v.size ≤ valuesSize es
  | [], v, h => by simp [lookupKey] at h
  | (k1, v1) :: rest, v, h => by
    simp only [lookupKey] at h
    by_cases hk : goEq k k1 = true
    · rw [if_pos hk] at h
      cases h
      simp [valuesSize]
    · rw [if_neg hk] at h
      have := lookupKey_size k rest v h
      simp only [valuesSize]
      omega

theorem valAt_bound (H : Heap) (S p : Nat) (x : GoValue) (hS : H.size ≤ S)
    (h : H.valAt p = some x) : p < H.length ∧ x.size ≤ S := by
  unfold Heap.valAt at h
  split at h
  · next v hv =>
    cases h
    have := cell_size_le H _ p hv
    simp only [Cell.size] at this
    exact ⟨this.1, by omega⟩
  · cases h

theorem arrAt_bound (H : Heap) (S p n : Nat) (xs : List GoValue) (hS : H.size ≤ S)
    (h : H.arrAt p n = some xs) :
    sizeAll xs ≤ S ∧ n ≤ S ∧ (n ≠ 0 → p < H.length) := by
  unfold Heap.arrAt at h
  by_cases hn : n = 0
  · rw [if_pos hn] at h
    cases h
    exact ⟨by simp [sizeAll], by omega, fun h0 => absurd hn h0⟩
  · rw [if_neg hn] at h
    split at h
    · next ys hv =>
      have hb := cell_size_le H _ p hv
      simp only [Cell.size] at hb
      by_cases hl : n ≤ ys.length
      · rw [if_pos hl] at h
        cases h
        have h1 := sizeAll_take n ys
        have h2 := length_le_sizeAll ys
        exact ⟨by omega, by omega, fun _ => hb.1⟩
      · rw [if_neg hl] at h
        cases h
    · cases h

theorem mapAt_bound (H : Heap) (S p : Nat) (es : List (GoValue × GoValue)) (hS : H.size ≤ S)
    (h : H.mapAt p = some es) : p < H.length ∧ es.length + valuesSize es ≤ S := by
  unfold Heap.mapAt at h
  split at h
  · next v hv =>
    cases h
    have := cell_size_le H _ p hv
    simp only [Cell.size] at this
    exact ⟨this.1, by omega⟩
  · cases h

theorem key_mem (H : Heap) (S p q t : Nat) (hp : p < H.length) (hq : q < H.length)
    (ht : t < S + 3) : (p, q, t) ∈ keySpace H S := by
  simp [keySpace, hp, hq, ht]

mutual
theorem deepValueEqual_total (H : Heap) (S : Nat) (hS : H.size ≤ S) :
    ∀ (f : Nat) (vis : Visited) (a b : GoValue),
    budget H S vis * (S + 1) + a.size < f →
    ∃ r vis1, deepValueEqual H f vis a b = some (r, vis1) ∧ ∀ k ∈ vis, k ∈ vis1
  | 0, _, _, _, h => by omega
  | f + 1, vis, a, b, h => by
    cases a with
    | nilV => cases b <;> exact ⟨_, _, rfl, fun k hk => hk⟩
    | boolV t1 x => cases b <;> exact ⟨_, _, rfl, fun k hk => hk⟩
    | intV t1 x => cases b <;> exact ⟨_, _, rfl, fun k hk => hk⟩
    | floatV t1 x => cases b <;> exact ⟨_, _, rfl, fun k hk => hk⟩
    | complexV t1 r1 i1 => cases b <;> exact ⟨_, _, rfl, fun k hk => hk⟩
    | stringV t1 x => cases b <;> exact ⟨_, _, rfl, fun k hk => hk⟩
    | funcV t1 g1 => cases b <;> exact ⟨_, _, rfl, fun k hk => hk⟩
    | chanV t1 c => cases b <;> exact ⟨_, _, rfl, fun k hk => hk⟩
    | nilSliceV t1 => cases b <;> exact ⟨_, _, rfl, fun k hk => hk⟩
    | nilPtrV t1 => cases b <;> exact ⟨_, _, rfl, fun k hk => hk⟩
    | nilMapV t1 => cases b <;> exact ⟨_, _, rfl, fun k hk => hk⟩
    | arrayV t1 xs =>
      cases b with
      | arrayV t2 ys =>
        simp only [deepValueEqual]
        by_cases ht : (t1 == t2) = true
        · rw [if_pos ht]
          simp only [GoValue.size] at h
          exact deepEqualAll_total H S hS f vis xs ys (by omega)
        · rw [if_neg ht]
          exact ⟨_, _, rfl, fun k hk => hk⟩
      | _ => exact ⟨_, _, rfl, fun k hk => hk⟩
    | structV t1 xs =>
      cases b with
      | structV t2 ys =>
        simp only [deepValueEqual]
        by_cases ht : (t1 == t2) = true
        · rw [if_pos ht]
          simp only [GoValue.size] at h
          exact deepEqualAll_total H S hS f vis xs ys (by omega)
        · rw [if_neg ht]
          exact ⟨_, _, rfl, fun k hk => hk⟩
      | _ => exact ⟨_, _, rfl, fun k hk => hk⟩
    | sliceV t1 p n =>
      cases b with
      | sliceV t2 q m =>
        simp only [deepValueEqual]
        by_cases ht : (t1 == t2 && n == m) = true
        · rw [if_pos ht]
          by_cases hv : vis.contains (p, q, n + 2) = true
          · rw [if_pos hv]
            exact ⟨_, _, rfl, fun k hk => hk⟩
          · rw [if_neg hv]
            by_cases hpq : (p == q) = true
            · rw [if_pos hpq]
              exact ⟨_, _, rfl, fun k hk => List.mem_cons_of_mem _ hk⟩
            · rw [if_neg hpq]
              cases hx : H.arrAt p n with
              | none => exact ⟨_, _, rfl, fun k hk => hk⟩
              | some xs =>
                cases hy : H.arrAt q n with
                | none => exact ⟨_, _, rfl, fun k hk => hk⟩
                | some ys =>
                  simp only
                  have bx := arrAt_bound H S p n xs hS hx
                  have by1 := arrAt_bound H S q n ys hS hy
                  have hnv : (p, q, n + 2) ∉ vis := fun hm => hv (by simpa using hm)
                  simp only [GoValue.size] at h
                  have hlt : budget H S ((p, q, n + 2) :: vis) * (S + 1) + sizeAll xs < f := by
                    by_cases hn : n = 0
                    · subst hn
                      have hxs : xs = [] := by
                        simp only [Heap.arrAt, if_true] at hx
                        exact (Option.some.inj hx).symm
                      subst hxs
                      have hm := Nat.mul_le_mul_right (S + 1)
                        (budget_mono H S vis ((p, q, 0 + 2) :: vis)
                          (fun k hk => List.mem_cons_of_mem _ hk))
                      simp only [sizeAll]
                      omega
                    · have hb := budget_cons H S vis (p, q, n + 2)
                        (key_mem H S p q (n + 2) (bx.2.2 hn) (by1.2.2 hn) (by omega)) hnv
                      exact step_budget _ _ S f _ hb h bx.1
                  obtain ⟨r, vis1, h1, h2⟩ :=
                    deepEqualAll_total H S hS f ((p, q, n + 2) :: vis) xs ys hlt
                  exact ⟨r, vis1, h1, fun k hk => h2 k (List.mem_cons_of_mem _ hk)⟩
        · rw [if_neg ht]
          exact ⟨_, _, rfl, fun k hk => hk⟩
      | _ => exact ⟨_, _, rfl, fun k hk => hk⟩
    | ptrV t1 p =>
      cases b with
      | ptrV t2 q =>
        simp only [deepValueEqual]
        by_cases ht : (t1 == t2) = true
        · rw [if_pos ht]
          by_cases hv : vis.contains (p, q, 0) = true
          · rw [if_pos hv]
            exact ⟨_, _, rfl, fun k hk => hk⟩
          · rw [if_neg hv]
            by_cases hpq : (p == q) = true
            · rw [if_pos hpq]
              exact ⟨_, _, rfl, fun k hk => List.mem_cons_of_mem _ hk⟩
            · rw [if_neg hpq]
              cases hx : H.valAt p with
              | none => exact ⟨_, _, rfl, fun k hk => hk⟩
              | some x =>
                cases hy : H.valAt q with
                | none => exact ⟨_, _, rfl, fun k hk => hk⟩
                | some y =>
                  simp only
                  have bx := valAt_bound H S p x hS hx
                  have by1 := valAt_bound H S q y hS hy
                  have hnv : (p, q, 0) ∉ vis := fun hm => hv (by simpa using hm)
                  have hb := budget_cons H S vis (p, q, 0)
                    (key_mem H S p q 0 bx.1 by1.1 (by omega)) hnv
                  simp only [GoValue.size] at h
                  obtain ⟨r, vis1, h1, h2⟩ := deepValueEqual_total H S hS f ((p, q, 0) :: vis) x y
                    (step_budget _ _ S f _ hb h bx.2)
                  exact ⟨r, vis1, h1, fun k hk => h2 k (List.mem_cons_of_mem _ hk)⟩
        · rw [if_neg ht]
          exact ⟨_, _, rfl, fun k hk => hk⟩
      | _ => exact ⟨_, _, rfl, fun k hk => hk⟩
    | mapV t1 p =>
      cases b with
      | mapV t2 q =>
        simp only [deepValueEqual]
        by_cases ht : (t1 == t2) = true
        · rw [if_pos ht]
          by_cases hv : vis.contains (p, q, 1) = true
          · rw [if_pos hv]
            exact ⟨_, _, rfl, fun k hk => hk⟩
          · rw [if_neg hv]
            by_cases hpq : (p == q) = true
            · rw [if_pos hpq]
              exact ⟨_, _, rfl, fun k hk => List.mem_cons_of_mem _ hk⟩
            · rw [if_neg hpq]
              cases hx : H.mapAt p with
              | none => exact ⟨_, _, rfl, fun k hk => hk⟩
              | some es1 =>
                cases hy : H.mapAt q with
                | none => exact ⟨_, _, rfl, fun k hk => hk⟩
                | some es2 =>
                  simp only
                  by_cases hl : (es1.length == es2.length) = true
                  · rw [if_pos hl]
                    have bx := mapAt_bound H S p es1 hS hx
                    have by1 := mapAt_bound H S q es2 hS hy
                    have hnv : (p, q, 1) ∉ vis := fun hm => hv (by simpa using hm)
                    have hb := budget_cons H S vis (p, q, 1)
                      (key_mem H S p q 1 bx.1 by1.1 (by omega)) hnv
                    simp only [GoValue.size] at h
                    obtain ⟨r, vis1, h1, h2⟩ :=
                      deepEqualEntries_total H S hS f ((p, q, 1) :: vis) es1 es1 es2
                        (step_budget _ _ S f _ hb h bx.2)
                    exact ⟨r, vis1, h1, fun k hk => h2 k (List.mem_cons_of_mem _ hk)⟩
                  · rw [if_neg hl]
                    exact ⟨_, _, rfl, fun k hk => hk⟩
        · rw [if_neg ht]
          exact ⟨_, _, rfl, fun k hk => hk⟩
      | _ => exact ⟨_, _, rfl, fun k hk => hk⟩
theorem deepEqualAll_total (H : Heap) (S : Nat) (hS : H.size ≤ S) :
    ∀ (f : Nat) (vis : Visited) (xs ys : List GoValue),
    budget H S vis * (S + 1) + sizeAll xs < f →
    ∃ r vis1, deepEqualAll H f vis xs ys = some (r, vis1) ∧ ∀ k ∈ vis, k ∈ vis1
  | 0, _, _, _, h => by omega
  | f + 1, vis, [], [], h => ⟨_, _, rfl, fun k hk => hk⟩
  | f + 1, vis, [], _ :: _, h => ⟨_, _, rfl, fun k hk => hk⟩
  | f + 1, vis, _ :: _, [], h => ⟨_, _, rfl, fun k hk => hk⟩
  | f + 1, vis, x :: xs, y :: ys, h => by
    simp only [sizeAll] at h
    obtain ⟨r, vis2, h1, h2⟩ := deepValueEqual_total H S hS f vis x y (by omega)
    simp only [deepEqualAll, h1]
    cases r with
    | false => exact ⟨_, _, rfl, h2⟩
    | true =>
      simp only
      obtain ⟨r3, vis3, h3, h4⟩ := deepEqualAll_total H S hS f vis2 xs ys
        (keep_budget _ _ S f (1 + x.size + sizeAll xs - 1) _
          (budget_mono H S vis vis2 h2) (by omega) (by omega))
      exact ⟨r3, vis3, h3, fun k hk => h4 k (h2 k hk)⟩
theorem deepEqualEntries_total (H : Heap) (S : Nat) (hS : H.size ≤ S) :
    ∀ (f : Nat) (vis : Visited) (todo es1 es2 : List (GoValue × GoValue)),
    budget H S vis * (S + 1) + (todo.length + valuesSize es1) < f →
    ∃ r vis1, deepEqualEntries H f vis todo es1 es2 = some (r, vis1) ∧ ∀ k ∈ vis, k ∈ vis1
  | 0, _, _, _, _, h => by omega
  | f + 1, vis, [], es1, es2, h => ⟨_, _, rfl, fun k hk => hk⟩
  | f + 1, vis, (k0, w) :: rest, es1, es2, h => by
    simp only [deepEqualEntries]
    cases h1 : lookupKey k0 es1 with
    | none => exact ⟨_, _, rfl, fun k hk => hk⟩
    | some v1 =>
      cases h2 : lookupKey k0 es2 with
      | none => exact ⟨_, _, rfl, fun k hk => hk⟩
      | some v2 =>
        simp only
        have hv := lookupKey_size k0 es1 v1 h1
        simp only [List.length_cons] at h
        obtain ⟨r, vis2, h3, h4⟩ := deepValueEqual_total H S hS f vis v1 v2 (by omega)
        rw [h3]
        cases r with
        | false => exact ⟨_, _, rfl, h4⟩
        | true =>
          simp only
          obtain ⟨r5, vis5, h5, h6⟩ := deepEqualEntries_total H S hS f vis2 rest es1 es2
            (keep_budget _ _ S f (rest.length + valuesSize es1) _
              (budget_mono H S vis vis2 h4) (by omega) (by omega))
          exact ⟨r5, vis5, h5, fun k hk => h6 k (h4 k hk)⟩
end

theorem keySpace_card (H : Heap) (S : Nat) :
    (keySpace H S).card = H.length * (H.length * (S + 3)) := by
  simp [keySpace, Finset.card_product]

theorem budget_nil (H : Heap) (S : Nat) : budget H S [] = H.length * (H.length * (S + 3)) := by
  simp [budget, keySpace_card]

theorem deepValueEqual_fuelFor (H : Heap) (a b : GoValue) :
    ∃ r vis1, deepValueEqual H (fuelFor H a) [] a b = some (r, vis1) := by
  have hlt : budget H (H.size + a.size) [] * (H.size + a.size + 1) + a.size < fuelFor H a := by
    rw [budget_nil]
    have : H.length * (H.length * (H.size + a.size + 3)) * (H.size + a.size + 1)
        = H.length * H.length * (H.size + a.size + 3) * (H.size + a.size + 1) := by ring
    unfold fuelFor
    omega
  obtain ⟨r, vis1, h, -⟩ := deepValueEqual_total H (H.size + a.size) (by omega) (fuelFor H a) [] a b hlt
  exact ⟨r, vis1, h⟩

theorem deepEqual_iff_same (H : Heap) (a b : GoValue) :
    DeepEqual H a b = true ↔ Same .deep H a b := by
  obtain ⟨r, vis1, h⟩ := deepValueEqual_fuelFor H a b
  constructor
  · intro hd
    have hr : r = true := by simpa [DeepEqual, h] using hd
    subst hr
    obtain ⟨-, hm, hc⟩ := deepValueEqual_sound H _ [] a b vis1 h
    exact ⟨(· ∈ vis1), fun k hk => hc k hk (by simp), hm⟩
  · rintro ⟨V, hc, hm⟩
    have hr : r = true := deepValueEqual_complete H V hc _ [] a b r vis1 hm h
    subst hr
    simp [DeepEqual, h]

theorem goFloat_eq_of_identical (x y : GoFloat) (h : x = y ∧ x.isNaN = false) :
    GoFloat.eq x y = true := by
  obtain ⟨rfl, hn⟩ := h
  simp [GoFloat.eq, hn]

theorem goFloat_upToZero_of_eq (x y : GoFloat) (h : GoFloat.eq x y = true) :
    x = y ∨ (x.isZero = true ∧ y.isZero = true) := by
  simp only [GoFloat.eq, Bool.and_eq_true, Bool.or_eq_true, decide_eq_true_eq] at h
  rcases h.2 with hz | he
  · exact Or.inr hz
  · exact Or.inl he

theorem same_deep_of_identical (H : Heap) (a b : GoValue) (h : Same .identical H a b) :
    Same .deep H a b :=
  same_mono .identical .deep H (fun x y hxy => goFloat_eq_of_identical x y hxy)
    (fun _ _ hfg => ⟨hfg.2, hfg.1 ▸ hfg.2⟩) a b h

theorem same_upToZero_of_deep (H : Heap) (a b : GoValue) (h : Same .deep H a b) :
    Same .upToZero H a b :=
  same_mono .deep .upToZero H (fun x y hxy => goFloat_upToZero_of_eq x y hxy)
    (fun _ _ hfg => hfg.1.trans hfg.2.symm) a b h

mutual
theorem match_self_of_guarded : ∀ a : GoValue, a.guarded = true →
    Match .identical (fun _ => False) a a
  | .nilV, _ => by simp [Match]
  | .boolV _ _, _ => by simp [Match]
  | .intV _ _, _ => by simp [Match]
  | .floatV _ x, h => by
    simp only [GoValue.guarded, Bool.not_eq_true'] at h
    simp [Match, Leaf.identical, h]
  | .complexV _ re im, h => by
    simp only [GoValue.guarded, Bool.and_eq_true, Bool.not_eq_true'] at h
    simp [Match, Leaf.identical, h.1, h.2]
  | .stringV _ _, _ => by simp [Match]
  | .funcV _ code, h => by
    simp only [GoValue.guarded, Option.isNone_iff_eq_none] at h
    simp [Match, Leaf.identical, h]
  | .chanV _ _, _ => by simp [Match]
  | .arrayV _ xs, h => by
    simp only [GoValue.guarded] at h
    simp [Match, matchAll_self_of_guarded xs h]
  | .structV _ xs, h => by
    simp only [GoValue.guarded] at h
    simp [Match, matchAll_self_of_guarded xs h]
  | .nilSliceV _, _ => by simp [Match]
  | .sliceV _ _ _, _ => by simp [Match]
  | .nilPtrV _, _ => by simp [Match]
  | .ptrV _ _, _ => by simp [Match]
  | .nilMapV _, _ => by simp [Match]
  | .mapV _ _, _ => by simp [Match]
theorem matchAll_self_of_guarded : ∀ xs : List GoValue, guardedAll xs = true →
    MatchAll .identical (fun _ => False) xs xs
  | [], _ => by simp [MatchAll]
  | x :: xs, h => by
    simp only [guardedAll, Bool.and_eq_true] at h
    simp only [MatchAll]
    exact ⟨x, xs, rfl, match_self_of_guarded x h.1, matchAll_self_of_guarded xs h.2⟩
end

theorem same_self_of_guarded (H : Heap) (a : GoValue) (h : a.guarded = true) :
    Same .identical H a a :=
  ⟨fun _ => False, fun _ hk => hk.elim, match_self_of_guarded a h⟩

theorem match_typeOf (L : Leaf) (V : Nat × Nat × Nat → Prop) (a b : GoValue)
    (h : Match L V a b) : a.typeOf = b.typeOf := by
  cases a <;> simp only [Match] at h
  all_goals first
    | (subst h; rfl)
    | (obtain ⟨_, rfl, _⟩ := h; rfl)
    | (obtain ⟨_, _, rfl, _⟩ := h; rfl)

theorem deepEqual_of_identical (H : Heap) (a b : GoValue) (h : Same .identical H a b) :
    DeepEqual H a b = true :=
  (deepEqual_iff_same H a b).mpr (same_deep_of_identical H a b h)

theorem deepEqual_false_of_different (H : Heap) (a b : GoValue)
    (h : ¬ Same .upToZero H a b) : DeepEqual H a b = false := by
  cases hd : DeepEqual H a b with
  | false => rfl
  | true => exact absurd (same_upToZero_of_deep H a b ((deepEqual_iff_same H a b).mp hd)) h

theorem assertEqual_pass (env : Env) (callers : List Frame) (a b msg : GoValue) (s : State)
    (h : DeepEqual env.heap a b = true) :
    AssertEqual env callers a b msg s = .returned () s := by
  simp [AssertEqual, h]

theorem assertEqual_fail (env : Env) (callers : List Frame) (a b msg : GoValue) (s : State)
    (h : DeepEqual env.heap a b = false) :
    AssertEqual env callers a b msg s =
      .returned () (markedFailed s
        (twoLines (located (⟨assertGo env, 58⟩ :: callers) s.Skips) (fmtS env msg)
          (env.sharpV a ++ " != " ++ env.sharpV b))) := by
  simp [AssertEqual, h, Fail, Printf, diagLine, twoLines, located, markedFailed,
    String.append_assoc]

theorem execStmt_check (env : Env) (file : String) (outer : List Frame) (st : Stmt)
    (h : st.isCheck = true) (ran : List Stmt) (locals : List (String × GoValue)) (s : State) :
    ∃ s1 : State,
      execStmt env file outer st ⟨ran, locals, s⟩ = .completed ⟨ran ++ [st], locals, s1⟩ ∧
      s1.t.failCalls = s.t.failCalls + (if st.checkFails env = true then 1 else 0) ∧
      s1.t.failNowCalls = s.t.failNowCalls ∧
      s1.t.failed = (s.t.failed || st.checkFails env) := by
  obtain ⟨line, op⟩ := st
  cases op with
  | assertEqual a b m =>
    cases hd : DeepEqual env.heap a b with
    | true =>
      exact ⟨s, by simp [execStmt, assertEqual_pass _ _ _ _ _ _ hd],
        by simp [Stmt.checkFails, hd], rfl, by simp [Stmt.checkFails, hd]⟩
    | false =>
      simp only [execStmt, assertEqual_fail _ _ _ _ _ _ hd]
      refine ⟨_, rfl, ?_, ?_, ?_⟩ <;> simp [Stmt.checkFails, hd, markedFailed]
  | assertContains total part m =>
    cases hd : Contains total part with
    | true =>
      exact ⟨s, by simp [execStmt, assertContains_pass _ _ _ _ _ _ hd],
        by simp [Stmt.checkFails, hd], rfl, by simp [Stmt.checkFails, hd]⟩
    | false =>
      simp only [execStmt, assertContains_fail _ _ _ _ _ _ hd]
      refine ⟨_, rfl, ?_, ?_, ?_⟩ <;> simp [Stmt.checkFails, hd, markedFailed]
  | requireNoError _ _ => simp [Stmt.isCheck] at h
  | requireError _ _ => simp [Stmt.isCheck] at h
  | createFile _ _ => simp [Stmt.isCheck] at h
  | assign _ _ => simp [Stmt.isCheck] at h

theorem runTest_checks (env : Env) (file : String) (outer : List Frame) (rest : List Stmt) :
    ∀ (stmts : List Stmt), (∀ st ∈ stmts, st.isCheck = true) →
      ∀ (ran : List Stmt) (locals : List (String × GoValue)) (s : State),
      ∃ s1 : State,
        runTest env file outer (stmts ++ rest) ⟨ran, locals, s⟩ =
          runTest env file outer rest ⟨ran ++ stmts, locals, s1⟩ ∧
        s1.t.failCalls = s.t.failCalls + stmts.countP (Stmt.checkFails env) ∧
        s1.t.failNowCalls = s.t.failNowCalls ∧
        s1.t.failed = (s.t.failed || stmts.any (Stmt.checkFails env))
  | [], _, ran, locals, s => ⟨s, by simp, by simp, rfl, by simp⟩
  | st :: stmts, h, ran, locals, s => by
    obtain ⟨s1, he, hc, hn, hf⟩ :=
      execStmt_check env file outer st (h st (List.mem_cons_self _ _)) ran locals s
    obtain ⟨s2, hr, hc2, hn2, hf2⟩ :=
      runTest_checks env file outer rest stmts (fun x hx => h x (List.mem_cons_of_mem _ hx))
        (ran ++ [st]) locals s1
    refine ⟨s2, ?_, ?_, by rw [hn2, hn], ?_⟩
    · show runTest env file outer (st :: (stmts ++ rest)) _ = _
      simp only [runTest, he]
      rw [hr]
      simp
    · rw [hc2, hc, List.countP_cons]
      omega
    · rw [hf2, hf, List.any_cons, Bool.or_assoc]

theorem base_assertGo (env : Env) : Base (assertGo env) = "assert.go" := by
  have hd : (assertGo env).data = env.srcDir.data ++ "/assert.go".data := by
    simp [assertGo, String.data_append]
  have hne : assertGo env ≠ "" := by
    intro h
    have := congrArg String.data h
    rw [hd] at this
    simp at this
  have hs : stripTrailingSlashes (assertGo env).data = (assertGo env).data := by
    rw [hd]
    simp [stripTrailingSlashes, List.dropWhile]
  have ha : afterLastSlash (assertGo env).data = "assert.go".data := by
    rw [hd]
    simp [afterLastSlash, List.takeWhile]
  unfold Base
  rw [if_neg hne]
  simp only [hs, ha]
  decide

theorem base_no_slash (p : String) (h : ∃ c ∈ p.data, c ≠ '/') : '/' ∉ (Base p).data := by
  obtain ⟨c, hc, hne⟩ := h
  have hp : p ≠ "" := by
    intro hp
    rw [hp] at hc
    simp at hc
  have hr : p.data.reverse.dropWhile (fun c => c == '/') ≠ [] := by
    intro hnil
    rw [List.dropWhile_eq_nil_iff] at hnil
    have := hnil c (List.mem_reverse.mpr hc)
    simp at this
    exact hne this
  have hq : afterLastSlash (stripTrailingSlashes p.data) ≠ [] := by
    obtain ⟨d, r, hdr⟩ := List.exists_cons_of_ne_nil hr
    have hd : (d == '/') = false := by
      have := List.head_dropWhile_not (fun c => c == '/') p.data.reverse hr
      simpa [hdr] using this
    have hd2 : (d != '/') = true := by simp [bne, hd]
    simp [afterLastSlash, stripTrailingSlashes, hdr, List.takeWhile_cons, hd2]
  unfold Base
  rw [if_neg hp]
  simp only [if_neg hq]
  intro hmem
  have hmem2 : '/' ∈ List.takeWhile (fun c => c != '/')
      (stripTrailingSlashes p.data).reverse := by
    simpa [afterLastSlash] using hmem
  have := List.mem_takeWhile_imp hmem2
  simp at this

theorem located_some (stack : List Frame) (skip : Nat) (fr : Frame) (h : stack[skip]? = some fr) :
    located stack skip = (Base fr.file, fr.line) := by
  simp [located, Caller, h]

theorem located_none (stack : List Frame) (skip : Nat) (h : stack[skip]? = none) :
    located stack skip = (".", 0) := by
  simp [located, Caller, h, Base]

theorem createFile_fails (env : Env) (callers : List Frame) (os : TempFileOS) (content : String)
    (s : State) (l : Nat) (m : String) (e : GoError) (h : firstFailure os = some (l, m, e)) :
    CreateFile env callers os content s =
      .goexit (aborted
        { s with files := filesLeft os content s.files, sys := s.sys ++ stepsTaken os }
        (twoLines (located (stackInCreateFile env l callers) s.Skips) m e.text)) := by
  obtain ⟨c, w, cl⟩ := os
  cases c with
  | error e1 =>
    simp only [firstFailure, Option.some.injEq, Prod.mk.injEq] at h
    obtain ⟨rfl, rfl, rfl⟩ := h
    simp [CreateFile, TempFile, Outcome.andThen, requireNoError_some, aborted, filesLeft, stackInCreateFile,
      stepsTaken]
  | ok name =>
    cases w with
    | some ne =>
      obtain ⟨n, e2⟩ := ne
      simp only [firstFailure, Option.some.injEq, Prod.mk.injEq] at h
      obtain ⟨rfl, rfl, rfl⟩ := h
      simp [CreateFile, TempFile, fileWrite, Outcome.andThen, requireNoError_some,
        requireNoError_none, aborted, filesLeft, stepsTaken, appendTo, stackInCreateFile]
    | none =>
      cases cl with
      | some e3 =>
        simp only [firstFailure, Option.some.injEq, Prod.mk.injEq] at h
        obtain ⟨rfl, rfl, rfl⟩ := h
        simp [CreateFile, TempFile, fileWrite, fileClose, Outcome.andThen, requireNoError_some,
          requireNoError_none, aborted, filesLeft, stepsTaken, appendTo, stackInCreateFile]
      | none => simp [firstFailure] at h

theorem createFile_succeeds (env : Env) (callers : List Frame) (os : TempFileOS)
    (content : String) (s : State) (name : String) (hc : os.create = .ok name)
    (hw : os.write = none) (hcl : os.close = none) :
    CreateFile env callers os content s =
      .returned name
        { s with files := (name, bytesOf content) :: s.files,
                 sys := s.sys ++ [.create, .write, .close] } := by
  obtain ⟨c, w, cl⟩ := os
  simp only at hc hw hcl
  subst hc hw hcl
  simp [CreateFile, TempFile, fileWrite, fileClose, fileName, Outcome.andThen,
    requireNoError_none, appendTo]

theorem located_createFile_zero (env : Env) (l : Nat) (callers : List Frame) :
    located (stackInCreateFile env l callers) 0 = ("assert.go", 31) := by
  simp [located, Caller, stackInCreateFile, base_assertGo]

theorem located_createFile_one (env : Env) (l : Nat) (callers : List Frame) :
    located (stackInCreateFile env l callers) 1 = ("assert.go", l) := by
  simp [located, Caller, stackInCreateFile, base_assertGo]

theorem located_createFile_two (env : Env) (l : Nat) (fr : Frame) (outer : List Frame) :
    located (stackInCreateFile env l (fr :: outer)) 2 = (Base fr.file, fr.line) := by
  simp [located, Caller, stackInCreateFile]

theorem located_createFile_above (env : Env) (l : Nat) (fr : Frame) (outer : List Frame)
    (k : Nat) :
    located (stackInCreateFile env l (fr :: outer)) (k + 3) = located outer k := by
  simp [located, Caller, stackInCreateFile]

/-! ## The claims -/

/-- C1. `RequireNoError` on a non-nil error `e` with message `m` calls `FailNow`
once and exits the test there: it appends to standard output a text in which
both `m` and the description of `e` occur, the test is marked failed, and in a
test function the statements after the call are not executed.  On a nil error it
returns with the state unchanged (nothing written, not failed, no abort) and the
test function goes on with the next statement. -/
theorem requireNoError_contract (env : Env) (file : String) (line : Nat) (outer : List Frame)
    (m : String) (s : State) :
    (∀ e : GoError, ∃ written : String, ∃ s1 : State,
        RequireNoError env (⟨file, line⟩ :: outer) (some e) m s = .goexit s1 ∧
        s1.stdout = s.stdout ++ written ∧ Occurs m written ∧ Occurs e.text written ∧
        s1.t.failNowCalls = s.t.failNowCalls + 1 ∧ s1.t.failCalls = s.t.failCalls ∧
        s1.t.failed = true ∧
        ∀ (rest : List Stmt) (ran : List Stmt) (locals : List (String × GoValue)),
          runTest env file outer (⟨line, .requireNoError (some e) m⟩ :: rest) ⟨ran, locals, s⟩ =
            .stopped ⟨ran ++ [⟨line, .requireNoError (some e) m⟩], locals, s1⟩) ∧
    RequireNoError env (⟨file, line⟩ :: outer) none m s = .returned () s ∧
    ∀ (rest : List Stmt) (ran : List Stmt) (locals : List (String × GoValue)),
      runTest env file outer (⟨line, .requireNoError none m⟩ :: rest) ⟨ran, locals, s⟩ =
        runTest env file outer rest ⟨ran ++ [⟨line, .requireNoError none m⟩], locals, s⟩ := by
  refine ⟨fun e => ?_, rfl, fun _ _ _ => rfl⟩
  refine ⟨_, _, requireNoError_some env _ e m s, rfl, ?_, ?_, rfl, rfl, rfl,
    fun rest ran locals => ?_⟩
  · exact occurs_append_right _ _ _ (occurs_diagLine _ _)
  · exact occurs_append_left _ _ _ (occurs_append_right _ _ _ (occurs_diagLine _ _))
  · simp [runTest, execStmt, requireNoError_some, Outcome.state]

/-- C2. `RequireError` exits the test exactly when the error is nil.  On a nil
error it appends exactly one diagnostic line (location, message) to standard
output, calls `FailNow` once, and the statements after the call are not
executed.  On a non-nil error it returns with the state unchanged (nothing
written, not failed, no abort) and the test function goes on. -/
theorem requireError_contract (env : Env) (file : String) (line : Nat) (outer : List Frame)
    (m : String) (s : State) :
    (∃ s1 : State,
        RequireError env (⟨file, line⟩ :: outer) none m s = .goexit s1 ∧
        s1.stdout =
          s.stdout ++ diagLine (located (⟨assertGo env, 45⟩ :: ⟨file, line⟩ :: outer) s.Skips) m ∧
        s1.t.failNowCalls = s.t.failNowCalls + 1 ∧ s1.t.failCalls = s.t.failCalls ∧
        s1.t.failed = true ∧
        ∀ (rest : List Stmt) (ran : List Stmt) (locals : List (String × GoValue)),
          runTest env file outer (⟨line, .requireError none m⟩ :: rest) ⟨ran, locals, s⟩ =
            .stopped ⟨ran ++ [⟨line, .requireError none m⟩], locals, s1⟩) ∧
    (∀ e : GoError,
        RequireError env (⟨file, line⟩ :: outer) (some e) m s = .returned () s ∧
        ∀ (rest : List Stmt) (ran : List Stmt) (locals : List (String × GoValue)),
          runTest env file outer (⟨line, .requireError (some e) m⟩ :: rest) ⟨ran, locals, s⟩ =
            runTest env file outer rest ⟨ran ++ [⟨line, .requireError (some e) m⟩], locals, s⟩) ∧
    (∀ err : Option GoError,
        (∃ s1, RequireError env (⟨file, line⟩ :: outer) err m s = .goexit s1) ↔ err = none) := by
  refine ⟨⟨_, requireError_none env _ m s, rfl, rfl, rfl, rfl, fun rest ran locals => ?_⟩,
    fun e => ⟨rfl, fun _ _ _ => rfl⟩, fun err => ?_⟩
  · simp [runTest, execStmt, requireError_none, Outcome.state]
  · cases err with
    | none => simp [requireError_none]
    | some e => simp [requireError_some]

/-- C3, as the code has it.  `AssertEqual` decides by `reflect.DeepEqual`, always
returns, never calls `FailNow`, and the test function goes on with the next
statement.  When the values are deeply equal the state is unchanged, else it
appends two diagnostic lines and a blank line and calls `Fail` once.  The values
are deeply equal exactly when they have the same type and recursively identical
structure and content, floats compared by `==` and function values equal only
when both nil.  So the state is unchanged whenever they are identical with no
not-a-number and no non-nil function value among what is compared, in
particular for a value compared with itself when no not-a-number and no non-nil
function value is reached without passing through a pointer, a slice or a map,
values that lead back to themselves included; and `Fail` is called whenever the
types differ and whenever structure or content differ by more than the sign of a
zero. -/
theorem assertEqual_contract (env : Env) (file : String) (line : Nat) (outer : List Frame)
    (a b msg : GoValue) (s : State) :
    ∃ s1 : State,
      AssertEqual env (⟨file, line⟩ :: outer) a b msg s = .returned () s1 ∧
      s1.t.failNowCalls = s.t.failNowCalls ∧
      (DeepEqual env.heap a b = true → s1 = s) ∧
      (DeepEqual env.heap a b = false →
        s1 = markedFailed s
          (twoLines (located (⟨assertGo env, 58⟩ :: ⟨file, line⟩ :: outer) s.Skips)
            (fmtS env msg) (env.sharpV a ++ " != " ++ env.sharpV b))) ∧
      (DeepEqual env.heap a b = true ↔ Same .deep env.heap a b) ∧
      (Same .identical env.heap a b → s1 = s) ∧
      (a.guarded = true → b = a → s1 = s) ∧
      (¬ Same .upToZero env.heap a b →
        s1.t.failed = true ∧ s1.t.failCalls = s.t.failCalls + 1) ∧
      (a.typeOf ≠ b.typeOf → s1.t.failed = true ∧ s1.t.failCalls = s.t.failCalls + 1) ∧
      ∀ (rest : List Stmt) (ran : List Stmt) (locals : List (String × GoValue)),
        runTest env file outer (⟨line, .assertEqual a b msg⟩ :: rest) ⟨ran, locals, s⟩ =
          runTest env file outer rest ⟨ran ++ [⟨line, .assertEqual a b msg⟩], locals, s1⟩ := by
  cases h : DeepEqual env.heap a b with
  | true =>
    have hs : Same .deep env.heap a b := (deepEqual_iff_same env.heap a b).mp h
    refine ⟨s, assertEqual_pass _ _ _ _ _ _ h, rfl, fun _ => rfl, fun hf => Bool.noConfusion hf,
      ⟨fun _ => hs, fun _ => rfl⟩, fun _ => rfl, fun _ _ => rfl,
      fun hn => absurd (same_upToZero_of_deep env.heap a b hs) hn,
      fun ht => absurd (match_typeOf _ _ a b hs.choose_spec.2) ht, fun rest ran locals => ?_⟩
    simp [runTest, execStmt, assertEqual_pass _ _ _ _ _ _ h]
  | false =>
    have hns : ¬ Same .deep env.heap a b := fun hs => by
      rw [(deepEqual_iff_same env.heap a b).mpr hs] at h
      exact Bool.noConfusion h
    refine ⟨_, assertEqual_fail _ _ _ _ _ _ h, rfl, fun ht => Bool.noConfusion ht, fun _ => rfl,
      ⟨fun ht => Bool.noConfusion ht, fun hs => absurd hs hns⟩,
      fun hi => absurd (same_deep_of_identical env.heap a b hi) hns,
      fun hg hb => ?_, fun _ => ⟨rfl, rfl⟩, fun _ => ⟨rfl, rfl⟩, fun rest ran locals => ?_⟩
    · subst hb
      exact absurd (same_deep_of_identical env.heap b b (same_self_of_guarded env.heap b hg)) hns
    · simp [runTest, execStmt, assertEqual_fail _ _ _ _ _ _ h]

/-- C3 fails as stated.  Compared with itself, a non-nil function value and a
not-a-number each make `AssertEqual` write a diagnostic and mark the test failed;
so do two channels of one type that are not the same channel.  And the zero of
positive sign against the zero of negative sign, which differ in content, leave
the state unchanged. -/
theorem assertEqual_self_can_fail :
    (AssertEqual exampleEnv (⟨exampleFile, 12⟩ :: exampleOuter)
        (.funcV "func()" (some 1)) (.funcV "func()" (some 1)) (str "same") exampleState).state.t
      = ⟨true, 1, 0⟩ ∧
    (AssertEqual exampleEnv (⟨exampleFile, 12⟩ :: exampleOuter)
        (.funcV "func()" (some 1)) (.funcV "func()" (some 1)) (str "same") exampleState).state.stdout
      = "\texample_test.go:12: same\n\texample_test.go:12: (func())(0x47b0e0) != (func())(0x47b0e0)\n\n" ∧
    (AssertEqual exampleEnv (⟨exampleFile, 12⟩ :: exampleOuter)
        (.floatV "float64" nan) (.floatV "float64" nan) (str "same") exampleState).state.t
      = ⟨true, 1, 0⟩ ∧
    (AssertEqual exampleEnv (⟨exampleFile, 12⟩ :: exampleOuter)
        (.floatV "float64" nan) (.floatV "float64" nan) (str "same") exampleState).state.stdout
      = "\texample_test.go:12: same\n\texample_test.go:12: NaN != NaN\n\n" ∧
    (AssertEqual exampleEnv (⟨exampleFile, 12⟩ :: exampleOuter)
        (.chanV "chan int" (some 1)) (.chanV "chan int" (some 2)) (str "same") exampleState).state.t
      = ⟨true, 1, 0⟩ ∧
    posZero ≠ negZero ∧
    (AssertEqual exampleEnv (⟨exampleFile, 12⟩ :: exampleOuter)
        (.floatV "float64" posZero) (.floatV "float64" negZero) (str "same") exampleState).state.t
      = ⟨false, 0, 0⟩ ∧
    (AssertEqual exampleEnv (⟨exampleFile, 12⟩ :: exampleOuter)
        (.floatV "float64" posZero) (.floatV "float64" negZero) (str "same")
        exampleState).state.stdout = "" := by
  decide

/-- C3, an instance.  Two nodes at different addresses, each holding the number 1
and a pointer to itself, are identical in structure and content, and
`AssertEqual` on pointers to them leaves the state unchanged; so it does on a
pointer to one of them compared with itself.  A node holding the number 2
differs from them in content, `5` and `int64(5)` differ in type, and in both
cases `AssertEqual` marks the test failed.  Two maps with the same entries are
deeply equal, two slices are as far as their elements agree, and a nil slice is
not deeply equal to an empty one. -/
theorem assertEqual_contract_witness :
    Same .identical exampleEnv.heap (.ptrV "*node" 0) (.ptrV "*node" 1) ∧
    AssertEqual exampleEnv (⟨exampleFile, 12⟩ :: exampleOuter)
      (.ptrV "*node" 0) (.ptrV "*node" 1) (str "same") exampleState
      = .returned () exampleState ∧
    AssertEqual exampleEnv (⟨exampleFile, 12⟩ :: exampleOuter)
      (.ptrV "*node" 0) (.ptrV "*node" 0) (str "same") exampleState
      = .returned () exampleState ∧
    ¬ Same .upToZero exampleEnv.heap (.ptrV "*node" 0) (.ptrV "*node" 2) ∧
    (AssertEqual exampleEnv (⟨exampleFile, 12⟩ :: exampleOuter)
      (.ptrV "*node" 0) (.ptrV "*node" 2) (str "same") exampleState).state.t.failed = true ∧
    five.typeOf ≠ (GoValue.intV "int64" 5).typeOf ∧
    (AssertEqual exampleEnv (⟨exampleFile, 12⟩ :: exampleOuter)
      five (.intV "int64" 5) (str "same") exampleState).state.t.failed = true ∧
    DeepEqual exampleEnv.heap (.mapV "map[string]int" 3) (.mapV "map[string]int" 4) = true ∧
    DeepEqual exampleEnv.heap (.sliceV "[]int" 5 2) (.sliceV "[]int" 6 2) = true ∧
    DeepEqual exampleEnv.heap (.sliceV "[]int" 5 3) (.sliceV "[]int" 6 3) = false ∧
    DeepEqual exampleEnv.heap (.nilSliceV "[]int") (.sliceV "[]int" 5 0) = false := by
  have hi : Same .identical exampleEnv.heap (.ptrV "*node" 0) (.ptrV "*node" 1) := by
    refine ⟨fun k => k = (0, 1, 0), fun k hk => ?_, ?_⟩
    · subst hk
      refine Or.inr (Or.inl ⟨rfl, _, _, rfl, rfl, ?_⟩)
      simp only [Match, MatchAll]
      exact ⟨_, rfl, _, _, rfl, rfl, _, _, rfl, ⟨1, rfl, Or.inr rfl⟩, rfl⟩
    · simp [Match]
  have hd : ¬ Same .upToZero exampleEnv.heap (.ptrV "*node" 0) (.ptrV "*node" 2) := by
    rintro ⟨V, hc, hm⟩
    simp only [Match] at hm
    obtain ⟨q, hq, hv⟩ := hm
    cases hq
    rcases hv with hv | hv
    · exact absurd hv (by decide)
    · rcases hc _ hv with h0 | ⟨-, x, y, hx, hy, hxy⟩ | ⟨h0, -⟩ | ⟨n, h0, -⟩
      · exact absurd h0 (by decide)
      · cases hx
        cases hy
        simp only [Match, MatchAll] at hxy
        obtain ⟨ys, hys, y, ys1, rfl, hy, -⟩ := hxy
        simp at hys
        rw [← hys.1] at hy
        simp at hy
      · exact absurd h0 (by decide)
      · exact absurd h0 (by simp)
  have ht : five.typeOf ≠ (GoValue.intV "int64" 5).typeOf := by decide
  obtain ⟨s1, h1, -, -, -, -, h6, -, -, -, -⟩ :=
    assertEqual_contract exampleEnv exampleFile 12 exampleOuter
      (.ptrV "*node" 0) (.ptrV "*node" 1) (str "same") exampleState
  obtain ⟨s2, h2, -, -, -, -, -, h7, -, -, -⟩ :=
    assertEqual_contract exampleEnv exampleFile 12 exampleOuter
      (.ptrV "*node" 0) (.ptrV "*node" 0) (str "same") exampleState
  obtain ⟨s3, h3, -, -, -, -, -, -, h8, -, -⟩ :=
    assertEqual_contract exampleEnv exampleFile 12 exampleOuter
      (.ptrV "*node" 0) (.ptrV "*node" 2) (str "same") exampleState
  obtain ⟨s4, h4, -, -, -, -, -, -, -, h9, -⟩ :=
    assertEqual_contract exampleEnv exampleFile 12 exampleOuter
      five (.intV "int64" 5) (str "same") exampleState
  refine ⟨hi, ?_, ?_, hd, ?_, ht, ?_, by decide, by decide, by decide, by decide⟩
  · rw [h1, h6 hi]
  · rw [h2, h7 rfl rfl]
  · rw [h3]
    exact (h8 hd).1
  · rw [h4]
    exact (h9 ht).1

/-- C4. `AssertContains` always returns, never calls `FailNow`, and the test
function goes on with the next statement.  When `part` occurs in `total` the
state is unchanged.  When it does not (no `p`, `s` with `total = p ++ part ++ s`)
it appends two diagnostic lines and a blank line to standard output and calls
`Fail` once.  So `Fail` is called exactly when `part` does not occur.
`("abcdef", "cde")` passes; `("abcdef", "xyz")` fails and continues. -/
theorem assertContains_contract (env : Env) (file : String) (line : Nat) (outer : List Frame)
    (total part m : String) (s : State) :
    (∃ s1 : State,
      AssertContains env (⟨file, line⟩ :: outer) total part m s = .returned () s1 ∧
      s1.t.failNowCalls = s.t.failNowCalls ∧
      (Occurs part total → s1 = s) ∧
      (¬ Occurs part total →
        s1 = markedFailed s
          (twoLines (located (⟨assertGo env, 72⟩ :: ⟨file, line⟩ :: outer) s.Skips) m
            (env.sharpV (.stringV "string" total) ++ " doesn\x27t contain "
              ++ env.sharpV (.stringV "string" part)))) ∧
      (s1.t.failCalls = s.t.failCalls + 1 ↔ ¬ Occurs part total) ∧
      ∀ (rest : List Stmt) (ran : List Stmt) (locals : List (String × GoValue)),
        runTest env file outer (⟨line, .assertContains total part m⟩ :: rest) ⟨ran, locals, s⟩ =
          runTest env file outer rest
            ⟨ran ++ [⟨line, .assertContains total part m⟩], locals, s1⟩) ∧
    AssertContains env (⟨file, line⟩ :: outer) "abcdef" "cde" m s = .returned () s ∧
    ∃ s2 : State,
      AssertContains env (⟨file, line⟩ :: outer) "abcdef" "xyz" m s = .returned () s2 ∧
      s2.t.failed = true ∧ s2.t.failCalls = s.t.failCalls + 1 ∧
      s2.t.failNowCalls = s.t.failNowCalls := by
  refine ⟨?_, assertContains_pass _ _ _ _ _ _ (by decide),
    ⟨_, assertContains_fail _ _ _ _ _ _ (by decide), rfl, rfl, rfl⟩⟩
  cases h : Contains total part with
  | true =>
    have ho : Occurs part total := (contains_iff_occurs total part).mp h
    refine ⟨s, assertContains_pass _ _ _ _ _ _ h, rfl, fun _ => rfl, fun hn => absurd ho hn,
      ⟨fun he => absurd he (by omega), fun hn => absurd ho hn⟩, fun rest ran locals => ?_⟩
    simp [runTest, execStmt, assertContains_pass _ _ _ _ _ _ h]
  | false =>
    have ho : ¬ Occurs part total := fun ho => by
      rw [(contains_iff_occurs total part).mpr ho] at h
      exact Bool.noConfusion h
    refine ⟨_, assertContains_fail _ _ _ _ _ _ h, rfl, fun hp => absurd hp ho,
      fun _ => rfl, ⟨fun _ => ho, fun _ => rfl⟩, fun rest ran locals => ?_⟩
    simp [runTest, execStmt, assertContains_fail _ _ _ _ _ _ h]

/-- C4, an instance: `"cde"` occurs in `"abcdef"` and the call leaves the state
unchanged; `"xyz"` does not, and the call marks the test failed once and
returns. -/
theorem assertContains_contract_witness :
    Occurs "cde" "abcdef" ∧ ¬ Occurs "xyz" "abcdef" ∧
    AssertContains exampleEnv (⟨exampleFile, 12⟩ :: exampleOuter) "abcdef" "cde" "found"
      exampleState = .returned () exampleState ∧
    (AssertContains exampleEnv (⟨exampleFile, 12⟩ :: exampleOuter) "abcdef" "xyz" "found"
      exampleState).state.t = ⟨true, 1, 0⟩ := by
  have ho : Occurs "cde" "abcdef" := ⟨"ab", "f", by decide⟩
  have hn : ¬ Occurs "xyz" "abcdef" := fun hx => by
    have := (contains_iff_occurs "abcdef" "xyz").mpr hx
    exact absurd this (by decide)
  obtain ⟨⟨s1, h1, -, h3, -, -, -⟩, -, -⟩ :=
    assertContains_contract exampleEnv exampleFile 12 exampleOuter "abcdef" "cde" "found"
      exampleState
  obtain ⟨⟨s2, h2, -, -, h4, -, -⟩, -, -⟩ :=
    assertContains_contract exampleEnv exampleFile 12 exampleOuter "abcdef" "xyz" "found"
      exampleState
  refine ⟨ho, hn, ?_, ?_⟩
  · rw [h1, h3 ho]
  · rw [h2, h4 hn]
    rfl

/-- C5. `AssertContains` with the empty string as `part` never fails, whatever
`total` (the empty string included) and the message are: it returns with the
state unchanged, so nothing is written, the test is not marked failed and is
not aborted. -/
theorem assertContains_empty_part (env : Env) (callers : List Frame) (total m : String)
    (s : State) :
    AssertContains env callers total "" m s = .returned () s ∧ Contains total "" = true := by
  have h : Contains total "" = true :=
    (contains_iff_occurs total "").mpr ⟨"", total, by simp⟩
  exact ⟨assertContains_pass _ _ _ _ _ _ h, h⟩

/-- C6. A test function made of `AssertEqual` / `AssertContains` calls followed
by a sentinel assignment runs to its end: every call and the assignment are
executed, `Fail` has been called once for each call whose check failed and
`FailNow` never, and the test is failed at the end exactly when it was failed
before or some check failed (for a test not failed before: exactly when at least
one check failed). -/
theorem checks_mark_and_continue (env : Env) (file : String) (outer : List Frame)
    (stmts : List Stmt) (h : ∀ st ∈ stmts, st.isCheck = true) (line : Nat) (v : GoValue)
    (ran : List Stmt) (locals : List (String × GoValue)) (s : State) :
    ∃ s1 : State,
      runTest env file outer (stmts ++ [⟨line, .assign "sentinel" v⟩]) ⟨ran, locals, s⟩ =
        .completed ⟨ran ++ stmts ++ [⟨line, .assign "sentinel" v⟩],
          locals ++ [("sentinel", v)], s1⟩ ∧
      s1.t.failCalls = s.t.failCalls + stmts.countP (Stmt.checkFails env) ∧
      s1.t.failNowCalls = s.t.failNowCalls ∧
      s1.t.failed = (s.t.failed || stmts.any (Stmt.checkFails env)) ∧
      (s.t.failed = false → (s1.t.failed = true ↔ ∃ st ∈ stmts, st.checkFails env = true)) := by
  obtain ⟨s1, hr, hc, hn, hf⟩ :=
    runTest_checks env file outer [⟨line, .assign "sentinel" v⟩] stmts h ran locals s
  refine ⟨s1, ?_, hc, hn, hf, fun h0 => ?_⟩
  · rw [hr]
    simp [runTest, execStmt]
  · rw [hf, h0]
    simp

/-- C6, the scenario of the specification: `AssertEqual(t, 5, 5, "ok")`, then
`AssertEqual(t, 5, 6, "mismatch")`, then a sentinel assignment, in a fresh test:
all three statements are executed, the sentinel is assigned, there is exactly one
failure mark, and the test is failed. -/
theorem checks_mark_and_continue_witness :
    ∃ s1 : State,
      runTest exampleEnv exampleFile exampleOuter
        ([⟨10, .assertEqual five five (str "ok")⟩, ⟨11, .assertEqual five six (str "mismatch")⟩]
          ++ [⟨12, .assign "sentinel" (.boolV "bool" true)⟩]) ⟨[], [], exampleState⟩ =
        .completed ⟨[] ++ [⟨10, .assertEqual five five (str "ok")⟩,
            ⟨11, .assertEqual five six (str "mismatch")⟩]
            ++ [⟨12, .assign "sentinel" (.boolV "bool" true)⟩],
          [] ++ [("sentinel", .boolV "bool" true)], s1⟩ ∧
      s1.t.failCalls = 1 ∧ s1.t.failNowCalls = 0 ∧ s1.t.failed = true := by
  obtain ⟨s1, hr, hc, hn, hf, -⟩ :=
    checks_mark_and_continue exampleEnv exampleFile exampleOuter
      [⟨10, .assertEqual five five (str "ok")⟩, ⟨11, .assertEqual five six (str "mismatch")⟩]
      (by decide) 12 (.boolV "bool" true) [] [] exampleState
  refine ⟨s1, hr, ?_, hn, ?_⟩
  · rw [hc]
    decide
  · rw [hf]
    decide

/-- C7, as the code has it.  A diagnostic line is tab, file, colon, line, colon,
blank, text, newline.  A failing `RequireNoError`, `AssertEqual` or
`AssertContains` writes the line with the message, the line with the detail, and
a blank line, and a failing `RequireError` writes the line with the message; all
lines of a call carry one location; for `AssertEqual` the detail is the `%#v`
text of `actual`, then `" != "`, then that of `expected`.  When the stack has a
frame `Skips` levels above the helper (the helper itself is level 0), the
location is the base name of that frame's file and that frame's line, and the
base name has no slash in it when the file name has a character other than a
slash.  When the stack has no frame `Skips` levels up, the file printed is `.`
and the line is `0`. -/
theorem diagnostic_format (env : Env) (callers : List Frame) (s : State) :
    (∀ (loc : String × Nat) (text : String),
      diagLine loc text = "\t" ++ loc.1 ++ ":" ++ toString loc.2 ++ ": " ++ text ++ "\n") ∧
    (∀ (loc : String × Nat) (m detail : String),
      twoLines loc m detail = diagLine loc m ++ (diagLine loc detail ++ "\n")) ∧
    (∀ (e : GoError) (m : String),
      RequireNoError env callers (some e) m s =
        .goexit (aborted s
          (twoLines (located (⟨assertGo env, 31⟩ :: callers) s.Skips) m e.text))) ∧
    (∀ m : String,
      RequireError env callers none m s =
        .goexit (aborted s (diagLine (located (⟨assertGo env, 45⟩ :: callers) s.Skips) m))) ∧
    (∀ a b msg : GoValue, DeepEqual env.heap a b = false →
      AssertEqual env callers a b msg s =
        .returned () (markedFailed s
          (twoLines (located (⟨assertGo env, 58⟩ :: callers) s.Skips) (fmtS env msg)
            (env.sharpV a ++ " != " ++ env.sharpV b)))) ∧
    (∀ total part m : String, Contains total part = false →
      AssertContains env callers total part m s =
        .returned () (markedFailed s
          (twoLines (located (⟨assertGo env, 72⟩ :: callers) s.Skips) m
            (env.sharpV (.stringV "string" total) ++ " doesn\x27t contain "
              ++ env.sharpV (.stringV "string" part))))) ∧
    (∀ m : String, fmtS env (str m) = m) ∧
    (∀ (l : Nat) (fr : Frame), (⟨assertGo env, l⟩ :: callers)[s.Skips]? = some fr →
      located (⟨assertGo env, l⟩ :: callers) s.Skips = (Base fr.file, fr.line) ∧
      ((∃ c ∈ fr.file.data, c ≠ '/') → '/' ∉ (Base fr.file).data)) ∧
    (∀ l : Nat, (⟨assertGo env, l⟩ :: callers)[s.Skips]? = none →
      located (⟨assertGo env, l⟩ :: callers) s.Skips = (".", 0)) := by
  exact ⟨fun _ _ => rfl, fun _ _ _ => rfl, fun e m => requireNoError_some env callers e m s,
    fun m => requireError_none env callers m s,
    fun a b msg hd => assertEqual_fail env callers a b msg s hd,
    fun total part m hc => assertContains_fail env callers total part m s hc,
    fun m => by simp [fmtS, str],
    fun l fr h => ⟨located_some _ _ fr h, base_no_slash fr.file⟩,
    fun l h => located_none _ _ h⟩

/-- C7 fails as stated: with `Skips = 7` and four frames on the stack there is no
frame `Skips` levels up; a failing `RequireError` prints the file `.` and the
line `0`, and `.` is the base name of the file of no frame of the stack. -/
theorem location_without_frame :
    (⟨assertGo exampleEnv, 45⟩ :: ⟨exampleFile, 12⟩ :: exampleOuter)[7]? = none ∧
    (RequireError exampleEnv (⟨exampleFile, 12⟩ :: exampleOuter) none "expected an error"
        ⟨7, ⟨false, 0, 0⟩, "", [], []⟩).state.stdout = "\t.:0: expected an error\n" ∧
    ∀ fr ∈ (⟨assertGo exampleEnv, 45⟩ :: ⟨exampleFile, 12⟩ :: exampleOuter), Base fr.file ≠ "." := by
  decide

/-- C7, an instance: with the default `Skips = 1`, a failing `AssertEqual(t, 5, 6,
"mismatch")` at line 12 of `example_test.go` prints that file and line on both
lines, and the file name printed has no slash. -/
theorem diagnostic_format_witness :
    AssertEqual exampleEnv (⟨exampleFile, 12⟩ :: exampleOuter) five six (str "mismatch")
        exampleState =
      .returned () (markedFailed exampleState
        "\texample_test.go:12: mismatch\n\texample_test.go:12: 5 != 6\n\n") ∧
    '/' ∉ (Base exampleFile).data := by
  have h := diagnostic_format exampleEnv (⟨exampleFile, 12⟩ :: exampleOuter) exampleState
  have hl := h.2.2.2.2.2.2.2.1 58 ⟨exampleFile, 12⟩ (by decide)
  refine ⟨?_, hl.2 ⟨'h', by decide, by decide⟩⟩
  rw [h.2.2.2.2.1 five six (str "mismatch") (by decide), hl.1]
  have ht : twoLines (Base exampleFile, 12) (fmtS exampleEnv (str "mismatch"))
        (exampleEnv.sharpV five ++ " != " ++ exampleEnv.sharpV six)
      = "\texample_test.go:12: mismatch\n\texample_test.go:12: 5 != 6\n\n" := by decide
  rw [ht]

/-- C8. When the creation, the write and the close all succeed, `CreateFile`
returns the path of the new file; the file exists then and reading it back gives
exactly the bytes of `content`; nothing is written to standard output and the
test is neither marked failed nor aborted; the three file operations were each
asked for once; the test function goes on.  The bytes of `"hello"` are
`68 65 6c 6c 6f` (hexadecimal), and the empty string has none. -/
theorem createFile_round_trip (env : Env) (file : String) (line : Nat) (outer : List Frame)
    (os : TempFileOS) (content : String) (s : State) (name : String)
    (hc : os.create = .ok name) (hw : os.write = none) (hcl : os.close = none) :
    ∃ s1 : State,
      CreateFile env (⟨file, line⟩ :: outer) os content s = .returned name s1 ∧
      readFile name s1 = some (bytesOf content) ∧
      s1.stdout = s.stdout ∧ s1.t = s.t ∧ s1.Skips = s.Skips ∧
      s1.sys = s.sys ++ [.create, .write, .close] ∧
      (∀ (rest : List Stmt) (ran : List Stmt) (locals : List (String × GoValue)),
        runTest env file outer (⟨line, .createFile os content⟩ :: rest) ⟨ran, locals, s⟩ =
          runTest env file outer rest
            ⟨ran ++ [⟨line, .createFile os content⟩],
              locals ++ [("filename", .stringV "string" name)], s1⟩) ∧
      bytesOf "hello" = [0x68, 0x65, 0x6c, 0x6c, 0x6f] ∧ bytesOf "" = [] := by
  refine ⟨_, createFile_succeeds env _ os content s name hc hw hcl, ?_, rfl, rfl, rfl, rfl,
    fun rest ran locals => ?_, by decide, by decide⟩
  · simp [readFile, List.lookup]
  · simp [runTest, execStmt, createFile_succeeds env _ os content s name hc hw hcl]

/-- C8, an instance: `CreateFile(t, "hello")` on a system where all three steps
succeed returns the path, and the file at that path holds the five bytes of
`"hello"`. -/
theorem createFile_round_trip_witness :
    ∃ s1 : State,
      CreateFile exampleEnv (⟨exampleFile, 12⟩ :: exampleOuter) healthy "hello" exampleState =
        .returned "/tmp/example123456" s1 ∧
      readFile "/tmp/example123456" s1 = some [0x68, 0x65, 0x6c, 0x6c, 0x6f] ∧
      s1.stdout = "" ∧ s1.t = ⟨false, 0, 0⟩ := by
  obtain ⟨s1, h1, h2, h3, h4, -, -, -, h8, -⟩ :=
    createFile_round_trip exampleEnv exampleFile 12 exampleOuter healthy "hello" exampleState
      "/tmp/example123456" rfl rfl rfl
  exact ⟨s1, h1, by rw [h2, h8], h3, h4⟩

/-- C9. When one of the three steps of `CreateFile` returns an error, the call
exits the test with `FailNow`, having written the message of that step and then
the description of the error, and returns no path: a test function stops there
and assigns nothing.  A failed creation is followed by no write and no close and
leaves no file; a failed write is followed by no close and leaves the file with
what was written; a failed close leaves the file.  Whatever the system answers,
each of the steps is asked for at most once, in the order create, write, close
(all three, once each, when the call returns), and no removal is asked for. -/
theorem createFile_failure (env : Env) (file : String) (line : Nat) (outer : List Frame)
    (os : TempFileOS) (content : String) (s : State) :
    (∀ e : GoError, os.create = .error e →
      CreateFile env (⟨file, line⟩ :: outer) os content s =
        .goexit (aborted { s with sys := s.sys ++ [.create] }
          (twoLines (located (stackInCreateFile env 87 (⟨file, line⟩ :: outer)) s.Skips)
            "Expected no error creating temporary file" e.text))) ∧
    (∀ (name : String) (n : Nat) (e : GoError), os.create = .ok name → os.write = some (n, e) →
      CreateFile env (⟨file, line⟩ :: outer) os content s =
        .goexit (aborted
          { s with files := (name, (bytesOf content).take n) :: s.files,
                   sys := s.sys ++ [.create, .write] }
          (twoLines (located (stackInCreateFile env 89 (⟨file, line⟩ :: outer)) s.Skips)
            "Expected no error writing to temporary file" e.text))) ∧
    (∀ (name : String) (e : GoError),
      os.create = .ok name → os.write = none → os.close = some e →
      CreateFile env (⟨file, line⟩ :: outer) os content s =
        .goexit (aborted
          { s with files := (name, bytesOf content) :: s.files,
                   sys := s.sys ++ [.create, .write, .close] }
          (twoLines (located (stackInCreateFile env 91 (⟨file, line⟩ :: outer)) s.Skips)
            "Expected no error closing temporary file" e.text))) ∧
    (∀ s1 : State, CreateFile env (⟨file, line⟩ :: outer) os content s = .goexit s1 →
      s1.t.failed = true ∧ s1.t.failNowCalls = s.t.failNowCalls + 1 ∧
      ∀ (rest : List Stmt) (ran : List Stmt) (locals : List (String × GoValue)),
        runTest env file outer (⟨line, .createFile os content⟩ :: rest) ⟨ran, locals, s⟩ =
          .stopped ⟨ran ++ [⟨line, .createFile os content⟩], locals, s1⟩) ∧
    (CreateFile env (⟨file, line⟩ :: outer) os content s).state.sys = s.sys ++ stepsTaken os ∧
    stepsTaken os <+: [.create, .write, .close] ∧
    (∀ c : SysCall, (stepsTaken os).count c ≤ 1) ∧
    SysCall.remove ∉ stepsTaken os ∧
    (∀ (name : String) (s1 : State),
      CreateFile env (⟨file, line⟩ :: outer) os content s = .returned name s1 →
      stepsTaken os = [.create, .write, .close]) := by
  obtain ⟨c, w, cl⟩ := os
  refine ⟨fun e h => ?_, fun name n e h1 h2 => ?_, fun name e h1 h2 h3 => ?_, ?_, ?_, ?_, ?_, ?_,
    ?_⟩
  · simp only at h
    subst h
    exact createFile_fails env _ _ content s 87 _ e rfl
  · simp only at h1 h2
    subst h1 h2
    exact createFile_fails env _ _ content s 89 _ e rfl
  · simp only at h1 h2 h3
    subst h1 h2 h3
    exact createFile_fails env _ _ content s 91 _ e rfl
  · intro s1 h
    cases hf : firstFailure ⟨c, w, cl⟩ with
    | some lme =>
      obtain ⟨l, m, e⟩ := lme
      rw [createFile_fails env _ _ content s l m e hf] at h
      injection h with h
      subst h
      refine ⟨rfl, rfl, fun rest ran locals => ?_⟩
      simp [runTest, execStmt, createFile_fails env _ _ content s l m e hf, Outcome.state]
    | none =>
      cases c with
      | error e => simp [firstFailure] at hf
      | ok name =>
        cases w with
        | some ne => simp [firstFailure] at hf
        | none =>
          cases cl with
          | some e => simp [firstFailure] at hf
          | none => rw [createFile_succeeds env (⟨file, line⟩ :: outer) ⟨.ok name, none, none⟩ content s name rfl rfl rfl] at h; cases h
  · cases c with
    | error e =>
      rw [createFile_fails env (⟨file, line⟩ :: outer) ⟨.error e, w, cl⟩ content s 87 _ e rfl]
      rfl
    | ok name =>
      cases w with
      | some ne =>
        obtain ⟨n, e⟩ := ne
        rw [createFile_fails env (⟨file, line⟩ :: outer) ⟨.ok name, some (n, e), cl⟩ content s 89 _ e rfl]
        rfl
      | none =>
        cases cl with
        | some e =>
          rw [createFile_fails env (⟨file, line⟩ :: outer) ⟨.ok name, none, some e⟩ content s 91 _ e rfl]
          rfl
        | none =>
          rw [createFile_succeeds env (⟨file, line⟩ :: outer) ⟨.ok name, none, none⟩ content s name rfl rfl rfl]
          rfl
  · cases c <;> cases w <;> simp [stepsTaken]
  · intro x
    cases c <;> cases w <;> cases x <;> simp [stepsTaken]
  · cases c <;> cases w <;> simp [stepsTaken]
  · intro name s1 h
    cases c with
    | error e => rw [createFile_fails env (⟨file, line⟩ :: outer) ⟨.error e, w, cl⟩ content s 87 _ e rfl] at h; cases h
    | ok nm =>
      cases w with
      | some ne =>
        obtain ⟨n, e⟩ := ne
        rw [createFile_fails env (⟨file, line⟩ :: outer) ⟨.ok nm, some (n, e), cl⟩ content s 89 _ e rfl] at h
        cases h
      | none => rfl

/-- C9, an instance: when the write fails after two bytes, `CreateFile(t,
"hello")` exits the test having written the message of the write step and the
error, the close is not asked for, and the file is left with two bytes. -/
theorem createFile_failure_witness :
    CreateFile exampleEnv (⟨exampleFile, 12⟩ :: exampleOuter) diskFull "hello" exampleState =
      .goexit ⟨1, ⟨true, 0, 1⟩,
        "\tassert.go:89: Expected no error writing to temporary file\n\tassert.go:89: write /tmp/example123456: no space left on device\n\n",
        [("/tmp/example123456", [0x68, 0x65])], [.create, .write]⟩ := by
  rw [(createFile_failure exampleEnv exampleFile 12 exampleOuter diskFull "hello"
    exampleState).2.1 "/tmp/example123456" 2 ⟨"write /tmp/example123456: no space left on device"⟩
    rfl rfl]
  have ht : twoLines (located (stackInCreateFile exampleEnv 89 (⟨exampleFile, 12⟩ :: exampleOuter))
      exampleState.Skips) "Expected no error writing to temporary file"
        (GoError.mk "write /tmp/example123456: no space left on device").text
      = "\tassert.go:89: Expected no error writing to temporary file\n\tassert.go:89: write /tmp/example123456: no space left on device\n\n" := by
    decide
  have hb : (bytesOf "hello").take 2 = [0x68, 0x65] := by decide
  rw [ht, hb]
  rfl

/-- C10, as the code has it.  `CreateFile` puts one frame between the test and
`RequireNoError`.  When the step guarded at line `l` of `assert.go` (87, 89 or
91) fails, the location printed is that of the frame `Skips` levels above
`RequireNoError` on the stack `RequireNoError`, `CreateFile`, test, callers of
the test.  With `Skips = 1` it is `assert.go` and `l`; with `Skips = 2` it is the
test's call of `CreateFile`; a direct `RequireNoError` call from the test prints
the test's call with `Skips = 1`.  The test's call of `CreateFile` is printed
with `Skips = 2`, and with another value of `Skips` exactly when the frame at that
level is at the same base name and line: `assert.go:31` for `Skips = 0`,
`assert.go:l` for `Skips = 1`, a caller of the test for `Skips` from 3 on. -/
theorem createFile_location (env : Env) (file : String) (line : Nat) (outer : List Frame)
    (os : TempFileOS) (content : String) (s : State) (l : Nat) (m : String) (e : GoError)
    (h : firstFailure os = some (l, m, e)) :
    (l = 87 ∨ l = 89 ∨ l = 91) ∧
    (CreateFile env (⟨file, line⟩ :: outer) os content s).state.stdout =
      s.stdout ++
        twoLines (located (stackInCreateFile env l (⟨file, line⟩ :: outer)) s.Skips) m e.text ∧
    (s.Skips = 1 →
      located (stackInCreateFile env l (⟨file, line⟩ :: outer)) s.Skips = ("assert.go", l)) ∧
    (s.Skips = 2 →
      located (stackInCreateFile env l (⟨file, line⟩ :: outer)) s.Skips = (Base file, line)) ∧
    (s.Skips = 1 → ∀ (e1 : GoError) (m1 : String),
      RequireNoError env (⟨file, line⟩ :: outer) (some e1) m1 s =
        .goexit (aborted s (twoLines (Base file, line) m1 e1.text))) ∧
    (located (stackInCreateFile env l (⟨file, line⟩ :: outer)) s.Skips = (Base file, line)
      ↔ s.Skips = 2 ∨ (s.Skips = 0 ∧ ("assert.go", 31) = (Base file, line))
        ∨ (s.Skips = 1 ∧ ("assert.go", l) = (Base file, line))
        ∨ ∃ k : Nat, s.Skips = k + 3 ∧ located outer k = (Base file, line)) := by
  refine ⟨?_, ?_, fun h1 => ?_, fun h2 => ?_, fun h1 e1 m1 => ?_, ?_⟩
  · obtain ⟨c, w, cl⟩ := os
    cases c with
    | error e1 =>
      simp only [firstFailure, Option.some.injEq, Prod.mk.injEq] at h
      exact Or.inl h.1.symm
    | ok name =>
      cases w with
      | some ne =>
        simp only [firstFailure, Option.some.injEq, Prod.mk.injEq] at h
        exact Or.inr (Or.inl h.1.symm)
      | none =>
        cases cl with
        | some e3 =>
          simp only [firstFailure, Option.some.injEq, Prod.mk.injEq] at h
          exact Or.inr (Or.inr h.1.symm)
        | none => simp [firstFailure] at h
  · rw [createFile_fails env _ os content s l m e h]
    rfl
  · rw [h1, located_createFile_one]
  · rw [h2, located_createFile_two]
  · rw [requireNoError_some, h1]
    have : located (⟨assertGo env, 31⟩ :: ⟨file, line⟩ :: outer) 1 = (Base file, line) := by
      simp [located, Caller]
    rw [this]
  · match hk : s.Skips with
    | 0 =>
      rw [located_createFile_zero]
      simp
    | 1 =>
      rw [located_createFile_one]
      simp
    | 2 =>
      rw [located_createFile_two]
      simp
    | k + 3 =>
      rw [located_createFile_above]
      simp

/-- C10 fails as stated: a test calls `CreateFile` inside a closure that is
written and called on one line, line 12 of `example_test.go`, so the frame of the
closure and the frame of the test function are both at that line.
When the creation fails, the call site is printed with `Skips = 2` and with
`Skips = 3` alike. -/
theorem call_site_printed_at_two_levels :
    (CreateFile exampleEnv (⟨exampleFile, 12⟩ :: ⟨exampleFile, 12⟩ :: exampleOuter)
        ⟨.error ⟨"permission denied"⟩, none, none⟩ "x"
        ⟨2, ⟨false, 0, 0⟩, "", [], []⟩).state.stdout =
      "\texample_test.go:12: Expected no error creating temporary file\n\texample_test.go:12: permission denied\n\n" ∧
    (CreateFile exampleEnv (⟨exampleFile, 12⟩ :: ⟨exampleFile, 12⟩ :: exampleOuter)
        ⟨.error ⟨"permission denied"⟩, none, none⟩ "x"
        ⟨3, ⟨false, 0, 0⟩, "", [], []⟩).state.stdout =
      "\texample_test.go:12: Expected no error creating temporary file\n\texample_test.go:12: permission denied\n\n" ∧
    (3 : Nat) ≠ 2 := by
  decide

/-- C10, an instance: the creation fails in a test that calls `CreateFile` at
line 12 of `example_test.go`.  With `Skips = 1` the diagnostic names
`assert.go:87`; with `Skips = 2` it names `example_test.go:12`. -/
theorem createFile_location_witness :
    (CreateFile exampleEnv (⟨exampleFile, 12⟩ :: exampleOuter)
        ⟨.error ⟨"permission denied"⟩, none, none⟩ "hello" exampleState).state.stdout =
      "" ++ twoLines ("assert.go", 87) "Expected no error creating temporary file"
        "permission denied" ∧
    (CreateFile exampleEnv (⟨exampleFile, 12⟩ :: exampleOuter)
        ⟨.error ⟨"permission denied"⟩, none, none⟩ "hello"
        ⟨2, ⟨false, 0, 0⟩, "", [], []⟩).state.stdout =
      "" ++ twoLines ("example_test.go", 12) "Expected no error creating temporary file"
        "permission denied" ∧
    located (stackInCreateFile exampleEnv 87 (⟨exampleFile, 12⟩ :: exampleOuter)) 1
      ≠ (Base exampleFile, 12) := by
  have h1 := createFile_location exampleEnv exampleFile 12 exampleOuter
    ⟨.error ⟨"permission denied"⟩, none, none⟩ "hello" exampleState 87
    "Expected no error creating temporary file" ⟨"permission denied"⟩ rfl
  have h2 := createFile_location exampleEnv exampleFile 12 exampleOuter
    ⟨.error ⟨"permission denied"⟩, none, none⟩ "hello" ⟨2, ⟨false, 0, 0⟩, "", [], []⟩ 87
    "Expected no error creating temporary file" ⟨"permission denied"⟩ rfl
  refine ⟨?_, ?_, ?_⟩
  · rw [h1.2.1, h1.2.2.1 rfl]
    rfl
  · rw [h2.2.1, h2.2.2.2.1 rfl]
    have hb : Base exampleFile = "example_test.go" := by decide
    rw [hb]
  · decide

end Assert
